import Mathlib

/-!
# Verification of the http-mirror crawler (pkg/mirror, pkg/http, pkg/config)

A shallow embedding, in Lean 4, of the Go code of the `http-mirror`
repository: the recursive crawler `mirrorURL` (pkg/mirror/manager.go), its
link filter `parseDirectoryListing`, the name gate `isValidFilename`, the
change-detection predicate `NeedsUpdate` and download path of the HTTP
client (pkg/http/client.go), and the configuration defaulting
`applyDefaults` (pkg/config/config.go).

Go strings are modelled as `List Char`.  The external collaborators
(`net/http`, `net/url`, the filesystem clock and the cancellation context)
are modelled as an explicit environment record: network responses are a
function from URL to result, the filesystem a function from path to stat
result, and the cancellation signal a deadline on a step counter that
advances by one at every network operation.  The Go standard library path
helpers `filepath.Clean`, `filepath.Base`, `filepath.Dir`, `filepath.Join`
and the `strings` package helpers are reimplemented with their documented
(Unix) semantics.
-/

namespace HttpMirror

/-- Shorthand: the `List Char` view of a string literal. -/
def lchars (s : String) : List Char := s.toList

/-! ## Models of Go `strings` helpers -/

/-- `hasPre p s` : `p` is a leading segment of `s` (byte-wise prefix). -/
def hasPre : List Char → List Char → Bool
  | [], _ => true
  | _ :: _, [] => false
  | a :: ps, b :: ss => a == b && hasPre ps ss

/-- Model of Go `strings.HasPrefix s pre`. -/
def goHasPrefix (s pre : List Char) : Bool := hasPre pre s

/-- Model of Go `strings.HasSuffix s suf`. -/
def goHasSuffix (s suf : List Char) : Bool := hasPre suf.reverse s.reverse

/-- Model of Go `strings.Contains s sub`. -/
def goContains (s sub : List Char) : Bool :=
  match s with
  | [] => sub.isEmpty
  | c :: t => hasPre sub (c :: t) || goContains t sub

/-- Model of Go `strings.TrimSuffix s suf`. -/
def goTrimSuffix (s suf : List Char) : List Char :=
  if goHasSuffix s suf then s.take (s.length - suf.length) else s

/-- The whitespace set of Go `unicode.IsSpace` (the Latin-1 part, which is
all the crawler ever meets: space, tab, newline, vertical tab, form feed,
carriage return, NEL, NBSP). -/
def goIsSpace (c : Char) : Bool :=
  c == ' ' || c == '\t' || c == '\n' || c == '\r' ||
  c.val == 11 || c.val == 12 || c.val == 0x85 || c.val == 0xA0

/-- Model of Go `strings.TrimSpace` (trim `goIsSpace` from both ends). -/
def goTrimSpace (s : List Char) : List Char :=
  ((s.dropWhile goIsSpace).reverse.dropWhile goIsSpace).reverse

/-- Model of Go `strings.ToLower` (ASCII part of the Unicode mapping; the
crawler only ever compares against the ASCII words "parent" and "back"). -/
def goToLower (s : List Char) : List Char := s.map Char.toLower

/-! ## Models of Go `path/filepath` helpers (Unix separator) -/

/-- One step of `filepath.Clean`'s dot-dot processing: push a path
segment onto the stack of kept segments. -/
def cleanSegs (rooted : Bool) : List (List Char) → List (List Char) → List (List Char)
  | stack, [] => stack.reverse
  | stack, s :: rest =>
    if s = [] ∨ s = ['.'] then cleanSegs rooted stack rest
    else if s = ['.', '.'] then
      match stack with
      | [] => if rooted then cleanSegs rooted [] rest
              else cleanSegs rooted [['.', '.']] rest
      | t :: st => if t = ['.', '.'] then cleanSegs rooted (s :: t :: st) rest
                   else cleanSegs rooted st rest
    else cleanSegs rooted (s :: stack) rest

/-- Model of Go `filepath.Clean` (Unix rules): split into `/`-separated
segments, drop empty and `.` segments, resolve `..` against kept
segments (absolute paths drop leading `..`). -/
def goClean (p : List Char) : List Char :=
  if p = [] then ['.']
  else
    let rooted := p.head? = some '/'
    let segs := cleanSegs rooted [] (p.splitOn '/')
    if segs = [] then (if rooted then ['/'] else ['.'])
    else if rooted then '/' :: List.intercalate ['/'] segs
    else List.intercalate ['/'] segs

/-- Model of Go `filepath.Base` (Unix rules). -/
def goBase (p : List Char) : List Char :=
  if p = [] then ['.']
  else
    let q := (p.reverse.dropWhile (· == '/')).reverse
    if q = [] then ['/']
    else (q.reverse.takeWhile (· != '/')).reverse

/-- Model of Go `filepath.Dir` (Unix rules): everything up to and
including the final separator, cleaned. -/
def goDir (p : List Char) : List Char :=
  goClean ((p.reverse.dropWhile (· != '/')).reverse)

/-- Model of Go `filepath.Join a b` for two elements: empty elements are
dropped, the rest joined with `/` and cleaned. -/
def goJoin (a b : List Char) : List Char :=
  if a = [] then (if b = [] then [] else goClean b)
  else if b = [] then goClean a
  else goClean (a ++ '/' :: b)

/-! ## `isValidFilename` (pkg/mirror/manager.go) -/

/-- Model of `isValidFilename`: reject empty or whitespace-only names and
names containing `..`, `/` or `\`; accept everything else. -/
def isValidFilename (filename : List Char) : Bool :=
  if filename = [] ∨ goTrimSpace filename = [] then false
  else if goContains filename (lchars "..") ∨ goContains filename (lchars "/") ∨
          goContains filename (lchars "\\") then false
  else true

/-! ## `NeedsUpdate` (pkg/http/client.go)

Remote file metadata (`FileInfo`) keeps only the two fields the decision
reads: `LastModified` (a `time.Time`; `none` models the zero time, i.e. a
missing or unparsable `Last-Modified` header) and `Size` (an `int64`, `0`
when `Content-Length` is missing or unparsable).  The result of
`os.Stat` is modelled by `StatRes`. -/

/-- Model of the `FileInfo` fields consulted by `NeedsUpdate`. -/
structure RFileInfo where
  lastModified : Option Int
  size : Int
  deriving DecidableEq

/-- Result of `os.Stat` on a local path: the file's modification time and
size, a not-found condition, or any other stat failure. -/
inductive StatRes where
  | found (modTime : Int) (size : Int)
  | notFound
  | statErr
  deriving DecidableEq

/-- Model of `!remoteInfo.LastModified.IsZero() &&
stat.ModTime().Before(remoteInfo.LastModified)`. -/
def remoteNewer (m : Int) (lm : Option Int) : Bool :=
  match lm with
  | some t => decide (m < t)
  | none => false

/-- Model of `Client.NeedsUpdate`: absent local file → `true`; remote
strictly newer than the local modification time → `true`; remote size
positive and different from the local size → `true`; otherwise `false`.
A stat failure other than not-found is an error. -/
def needsUpdateM (st : StatRes) (info : RFileInfo) : Except Unit Bool :=
  match st with
  | .notFound => .ok true
  | .statErr => .error ()
  | .found m sz =>
    if remoteNewer m info.lastModified then .ok true
    else if 0 < info.size ∧ sz ≠ info.size then .ok true
    else .ok false

/-- Modelled from the words of claim C3 (and spec §4.1): short-circuit on
(1) local absent, (2) remote strictly newer, (3) remote and local sizes
differ — irrespective of timestamps, *including* when the remote reported
size is 0; stat failures other than not-found are errors (`none`). -/
def specNeedsUpdateClaim (st : StatRes) (info : RFileInfo) : Option Bool :=
  match st with
  | .notFound => some true
  | .statErr => none
  | .found m sz =>
    if remoteNewer m info.lastModified then some true
    else if sz ≠ info.size then some true
    else some false

/-- The amended decision rule: as the claim, except that the size
comparison only fires when the remote reported size is positive (a zero
reported size — missing `Content-Length` — never forces a download). -/
def specNeedsUpdateAmended (st : StatRes) (info : RFileInfo) : Option Bool :=
  match st with
  | .notFound => some true
  | .statErr => none
  | .found m sz =>
    if remoteNewer m info.lastModified then some true
    else if 0 < info.size ∧ sz ≠ info.size then some true
    else some false

/-- View an optional decision as the `Except` result the client returns. -/
def decisionToExcept : Option Bool → Except Unit Bool
  | some b => .ok b
  | none => .error ()

/-! ## Link extraction: `parseDirectoryListing` (pkg/mirror/manager.go)

The Go code scans the body with the regular expression
`href=["']([^"']+)["']` (`FindAllStringSubmatch`: leftmost,
non-overlapping matches) and then filters each captured link through four
skip rules, appending survivors in document order. -/

/-- A character that terminates the regex character class. -/
def isQuote (c : Char) : Bool := c == '"' || c == '\''

/-- Strip a literal prefix, returning the remainder on success. -/
def stripPre : List Char → List Char → Option (List Char)
  | [], s => some s
  | _ :: _, [] => none
  | a :: ps, b :: ss => if a == b then stripPre ps ss else none

/-- Match the regex `href=["']([^"']+)["']` at the head of `s`,
returning the captured group and the remainder after the match. -/
def matchHref (s : List Char) : Option (List Char × List Char) :=
  match stripPre (lchars "href=") s with
  | none => none
  | some r1 =>
    match r1 with
    | [] => none
    | q :: r2 =>
      if isQuote q then
        let body := r2.takeWhile (fun c => !isQuote c)
        let rest := r2.dropWhile (fun c => !isQuote c)
        if body = [] then none
        else match rest with
          | [] => none
          | _ :: r3 => some (body, r3)
      else none

/-- All captures of the regex over the body, leftmost and
non-overlapping, in document order (fuelled by the body length: every
step consumes at least one character). -/
def scanHrefs : Nat → List Char → List (List Char)
  | 0, _ => []
  | _ + 1, [] => []
  | fuel + 1, c :: t =>
    match matchHref (c :: t) with
    | some (link, rest) => link :: scanHrefs fuel rest
    | none => scanHrefs fuel t

/-- The four skip rules of `parseDirectoryListing`, in code order:
absolute schemes / fragment / `/` / `./`; parent traversal; textual
"parent"/"back" or query characters; empty or whitespace-only. -/
def keepLink (link : List Char) : Bool :=
  if goHasPrefix link (lchars "http://") || goHasPrefix link (lchars "https://") ||
     goHasPrefix link (lchars "mailto:") || goHasPrefix link (lchars "ftp://") ||
     goHasPrefix link (lchars "javascript:") || goHasPrefix link (lchars "data:") ||
     goHasPrefix link (lchars "vbscript:") ||
     goHasPrefix link (lchars "#") || link == lchars "/" || link == lchars "./" then false
  else if goContains link (lchars "..") || goHasPrefix link (lchars "../") ||
     goContains link (lchars "/..") || goHasSuffix link (lchars "/..") ||
     link == lchars ".." then false
  else if goContains (goToLower link) (lchars "parent") ||
     goContains (goToLower link) (lchars "back") ||
     goContains link (lchars "?") || goContains link (lchars "&") then false
  else if link == [] || goTrimSpace link == [] then false
  else true

/-- Model of `parseDirectoryListing`: scan for hrefs, filter through the
four skip rules, keep document order. -/
def parseListing (body : List Char) : List (List Char) :=
  (scanHrefs body.length body).filter keepLink

/-- Modelled from the words of the spec's link-extraction filter (claim
C2): a candidate survives iff it escapes all four exclusion rules. -/
def SurvivesSpec (link : List Char) : Prop :=
  ¬ (goHasPrefix link (lchars "http://") = true ∨ goHasPrefix link (lchars "https://") = true ∨
     goHasPrefix link (lchars "ftp://") = true ∨ goHasPrefix link (lchars "mailto:") = true ∨
     goHasPrefix link (lchars "javascript:") = true ∨ goHasPrefix link (lchars "data:") = true ∨
     goHasPrefix link (lchars "vbscript:") = true ∨ goHasPrefix link (lchars "#") = true ∨
     link = lchars "/" ∨ link = lchars "./") ∧
  ¬ (goContains link (lchars "..") = true ∨ goHasPrefix link (lchars "../") = true ∨
     goContains link (lchars "/..") = true ∨ goHasSuffix link (lchars "/..") = true ∨
     link = lchars "..") ∧
  ¬ (goContains (goToLower link) (lchars "parent") = true ∨
     goContains (goToLower link) (lchars "back") = true ∨
     goContains link (lchars "?") = true ∨ goContains link (lchars "&") = true) ∧
  ¬ (link = [] ∨ ∀ c ∈ link, goIsSpace c)

instance (l : List Char) : Decidable (SurvivesSpec l) := by
  unfold SurvivesSpec; infer_instance

/-- A directory-listing body carrying exactly the six candidate hrefs of
the claim: `file1.txt`, `subdir/`, `../`, `?order=name`,
`mailto:a@b.com`, `javascript:void(0)`. -/
def sampleListingBody : List Char :=
  lchars "<html><a href=\"file1.txt\">f</a><a href=\"subdir/\">s</a><a href=\"../\">p</a><a href=\"?order=name\">o</a><a href=\"mailto:a@b.com\">m</a><a href=\"javascript:void(0)\">j</a></html>"

/-! ## The crawl: `MirrorTarget` / `mirrorURL` / `downloadFile`
(pkg/mirror/manager.go) driving `Client.DownloadFile` (pkg/http/client.go)

The external world is a record `Env`: what each URL answers to the
listing `GET`, the metadata `HEAD` probe and the content `GET`; how
`net/url` resolves a link against a base and what the parsed path of a
URL is; and the cancellation deadline, expressed on a step counter that
advances at every network operation (every Go network call carries the
context, so once the deadline has passed every further call fails and
the per-call `ctx.Done()` check fires).  The filesystem starts as a
function from path to stat result and is updated by downloads.
`os.MkdirAll` and `os.Create` calls are recorded in an operation log;
directory creation itself never fails in the model (filesystem faults
other than the stat results are not modelled). -/

/-- A recorded filesystem write, tagged by its call site:
`mkdirTarget` = `MkdirAll` of the target directory in `MirrorTarget`;
`mkdirSub` = `MkdirAll` for a subdirectory link in `mirrorURL`;
`mkdirParent` = `MkdirAll(filepath.Dir(localPath))` in
`Client.DownloadFile`; `createLink` / `createDirect` = `os.Create` of
the destination file, reached from a file link respectively from the
direct-file (non-listing) branches of `mirrorURL`. -/
inductive FsOp where
  | mkdirTarget (path : List Char)
  | mkdirSub (path : List Char)
  | mkdirParent (path : List Char)
  | createLink (path : List Char)
  | createDirect (path : List Char)
  deriving DecidableEq

/-- Model of `MirrorStats` (the fields the walk mutates). -/
structure Stats where
  filesDownloaded : Int := 0
  filesSkipped : Int := 0
  bytesDownloaded : Int := 0
  errors : Int := 0
  deriving DecidableEq

/-- The environment: network answers, URL algebra, cancellation deadline
and the current wall time used for file timestamps. -/
structure Env where
  /-- Listing fetch (`GET` via `fetchDirectoryListing`): content type and
  body, `none` for a transport or status failure. -/
  fetchDir : List Char → Option (List Char × List Char)
  /-- Metadata probe (`HEAD` via `CheckFileInfo`). -/
  head : List Char → Option RFileInfo
  /-- Content download (`GET` in `Client.DownloadFile`): body length and
  the parsed `Last-Modified` header. -/
  get : List Char → Option (Nat × Option Int)
  /-- `parsedURL.ResolveReference(linkURL).String()`. -/
  resolve : List Char → List Char → List Char
  /-- `url.Parse(currentURL).Path`. -/
  urlPath : List Char → List Char
  /-- Whether `url.Parse(currentURL)` succeeds. -/
  parseOkURL : List Char → Bool
  /-- Whether `url.Parse(link)` succeeds. -/
  parseOkLink : List Char → Bool
  /-- Step count at which the context is cancelled (`none`: never). -/
  cancelAt : Option Nat
  /-- Wall-clock timestamp for files written without a `Last-Modified`. -/
  nowTime : Int

/-- Mutable run state: statistics, filesystem, network step counter,
write log, network log, and the log of `downloadFile` invocations
(URL, local path). -/
structure CState where
  stats : Stats
  fs : List Char → StatRes
  clock : Nat
  ops : List FsOp
  net : List (List Char)
  dls : List (List Char × List Char)

/-- Has the context's deadline passed at step `clock`? -/
def ctxCancelled (env : Env) (clock : Nat) : Bool :=
  match env.cancelAt with
  | some n => decide (n ≤ clock)
  | none => false

def bumpErr (st : CState) : CState :=
  { st with stats := { st.stats with errors := st.stats.errors + 1 } }

def bumpSkipped (st : CState) : CState :=
  { st with stats := { st.stats with filesSkipped := st.stats.filesSkipped + 1 } }

def bumpDownloaded (sz : Int) (st : CState) : CState :=
  { st with stats := { st.stats with
      filesDownloaded := st.stats.filesDownloaded + 1,
      bytesDownloaded := st.stats.bytesDownloaded + sz } }

def pushOp (op : FsOp) (st : CState) : CState := { st with ops := st.ops ++ [op] }

def logNet (u : List Char) (st : CState) : CState :=
  { st with net := st.net ++ [u], clock := st.clock + 1 }

def logDl (u p : List Char) (st : CState) : CState :=
  { st with dls := st.dls ++ [(u, p)] }

def setFile (p : List Char) (mt sz : Int) (st : CState) : CState :=
  { st with fs := fun q => if q = p then .found mt sz else st.fs q }

/-- Answer of a `HEAD` probe issued at the state's clock: fails when
the context is cancelled, else answers from the environment.  (The
clock advance and network log are applied by `logNet` at the call
site.) -/
def netHead (env : Env) (st : CState) (url : List Char) : Option RFileInfo :=
  if ctxCancelled env st.clock then none else env.head url

/-- Answer of a content `GET` issued at the state's clock. -/
def netGet (env : Env) (st : CState) (url : List Char) : Option (Nat × Option Int) :=
  if ctxCancelled env st.clock then none else env.get url

/-- Answer of the listing `GET` of `fetchDirectoryListing`. -/
def netFetchDir (env : Env) (st : CState) (url : List Char) :
    Option (List Char × List Char) :=
  if ctxCancelled env st.clock then none else env.fetchDir url

/-- The errors `mirrorURL` can return to its caller. -/
inductive MErr where
  | ctxErr
  | parseErr
  | fetchErr
  deriving DecidableEq

/-- The errors `Client.DownloadFile` can return. -/
inductive CErr where
  | headErr
  | statErr
  | getErr
  deriving DecidableEq

/-- Default filename of the HTML-with-zero-links branch of `mirrorURL`
(lines 136–139): only `""` and `"."` fall back to `index.html`. -/
def directFilenameHTML (p : List Char) : List Char :=
  if goBase p = [] ∨ goBase p = lchars "." then lchars "index.html" else goBase p

/-- Default filename of the non-HTML branch of `mirrorURL` (lines
217–220): `""`, `"."` and `"/"` fall back to `index.html`. -/
def directFilenameNonHTML (p : List Char) : List Char :=
  if goBase p = [] ∨ goBase p = lchars "." ∨ goBase p = lchars "/" then lchars "index.html"
  else goBase p

/-- Completion of `Client.DownloadFile`'s `GET`: on failure the
(truncated) destination is left behind and the error returned; on
success the body is written and the modification time set from the
`Last-Modified` header when present (else it stays at the wall clock). -/
def clientFinish (env : Env) (localPath : List Char) :
    Option (Nat × Option Int) → CState → Except CErr Unit × CState
  | none, s3 => (.error .getErr, s3)
  | some (blen, lm), s3 =>
    (.ok (), setFile localPath (lm.getD env.nowTime) (Int.ofNat blen) s3)

/-- The unconditional download path of `Client.DownloadFile`: create the
parent directory, create/truncate the destination, then issue the `GET`
and finish. -/
def clientDoDownload (env : Env) (url localPath : List Char) (tag : List Char → FsOp)
    (st : CState) : Except CErr Unit × CState :=
  let s2 := setFile localPath env.nowTime 0
    (pushOp (tag localPath) (pushOp (FsOp.mkdirParent (goDir localPath)) st))
  clientFinish env localPath (netGet env s2 url) (logNet url s2)

/-- The probe-and-decide part of `Client.DownloadFile`: a failed probe
or stat is returned as an error, an up-to-date file is silently skipped,
otherwise download. -/
def clientProbe (env : Env) (url localPath : List Char) (tag : List Char → FsOp) :
    Option RFileInfo → CState → Except CErr Unit × CState
  | none, st1 => (.error .headErr, st1)
  | some info, st1 =>
    match needsUpdateM (st1.fs localPath) info with
    | .error _ => (.error .statErr, st1)
    | .ok false => (.ok (), st1)
    | .ok true => clientDoDownload env url localPath tag st1

/-- Model of `Client.DownloadFile`: with change detection, probe first
and silently skip when `NeedsUpdate` is false; probe or stat failures
are returned as errors; otherwise download. -/
def clientDownloadM (env : Env) (cc : Bool) (url localPath : List Char)
    (tag : List Char → FsOp) (st : CState) : Except CErr Unit × CState :=
  if cc then clientProbe env url localPath tag (netHead env st url) (logNet url st)
  else clientDoDownload env url localPath tag st

/-- The tail of `Manager.downloadFile` once it has decided to call
`Client.DownloadFile`: a failed download increments the error counter, a
successful one adds the downloaded file's on-disk size to the byte count
and increments the downloaded counter. -/
def runClientM (env : Env) (cc : Bool) (url localPath : List Char)
    (tag : List Char → FsOp) (s : CState) : Except Unit Unit × CState :=
  match clientDownloadM env cc url localPath tag s with
  | (.error _, s2) => (.error (), bumpErr s2)
  | (.ok _, s2) =>
    let sz := match s2.fs localPath with | .found _ n => n | _ => 0
    (.ok (), bumpDownloaded sz s2)

/-- The probe-and-decide part of `Manager.downloadFile`: when the probe
or the stat fails, download anyway; an up-to-date file is counted
skipped; otherwise download. -/
def mirrorProbe (env : Env) (cc : Bool) (url localPath : List Char)
    (tag : List Char → FsOp) : Option RFileInfo → CState → Except Unit Unit × CState
  | none, st1 => runClientM env cc url localPath tag st1
  | some info, st1 =>
    match needsUpdateM (st1.fs localPath) info with
    | .error _ => runClientM env cc url localPath tag st1
    | .ok true => runClientM env cc url localPath tag st1
    | .ok false => (.ok (), bumpSkipped st1)

/-- Model of `Manager.downloadFile`: log the invocation; with change
detection, probe and decide; without it, download directly. -/
def downloadFileM (env : Env) (cc : Bool) (url localPath : List Char)
    (tag : List Char → FsOp) (st : CState) : Except Unit Unit × CState :=
  if cc then
    mirrorProbe env cc url localPath tag (netHead env (logDl url localPath st) url)
      (logNet url (logDl url localPath st))
  else runClientM env cc url localPath tag (logDl url localPath st)

/-- The depth bound of `mirrorURL`:
`target.MaxDepth >= 0 && depth >= target.MaxDepth`. -/
def depthReached (maxDepth depth : Int) : Bool :=
  decide (0 ≤ maxDepth) && decide (maxDepth ≤ depth)

/-- One iteration of the link loop of `mirrorURL` (lines 149–214):
parse the link, resolve it, re-check for parent traversal, then branch
on a trailing `/`: subdirectories are name-validated, containment-checked,
created and recursed into (the recursion's error is logged and
swallowed); files are name-validated, containment-checked and
downloaded (the download's error is logged and swallowed).  A failed
name validation skips the link; a failed containment check skips it and
increments the error counter. -/
def processLink (env : Env) (localDir : List Char) (depth : Int)
    (recurse : List Char → List Char → Int → CState → Except MErr Unit × CState)
    (cc : Bool) (baseURL : List Char) (st : CState) (link : List Char) : CState :=
  if env.parseOkLink link then
    if goContains link (lchars "..") || goContains link (lchars "Parent Directory") then st
    else if goHasSuffix link (lchars "/") then
      if isValidFilename (goTrimSuffix link (lchars "/")) then
        if goHasPrefix (goJoin localDir (goTrimSuffix link (lchars "/"))) localDir then
          (recurse (env.resolve baseURL link)
            (goJoin localDir (goTrimSuffix link (lchars "/"))) (depth + 1)
            (pushOp (FsOp.mkdirSub (goJoin localDir (goTrimSuffix link (lchars "/")))) st)).2
        else bumpErr st
      else st
    else
      if isValidFilename (goBase link) then
        if goHasPrefix (goJoin localDir (goBase link)) localDir then
          (downloadFileM env cc (env.resolve baseURL link) (goJoin localDir (goBase link))
            FsOp.createLink st).2
        else bumpErr st
      else st
  else st

/-- Processing of a fetched root/listing response in `mirrorURL`: a
fetch failure counts and is returned; an HTML response with links runs
the link loop; an HTML response without links and a non-HTML response
download the resource directly under the respective default filename. -/
def mirrorFetched (env : Env) (localDir : List Char) (depth : Int)
    (recurse : List Char → List Char → Int → CState → Except MErr Unit × CState)
    (cc : Bool) (currentURL : List Char) :
    Option (List Char × List Char) → CState → Except MErr Unit × CState
  | none, st1 => (.error .fetchErr, bumpErr st1)
  | some (ctype, body), st1 =>
    if goContains ctype (lchars "text/html") then
      if parseListing body = [] then
        (.ok (), (downloadFileM env cc currentURL
          (goJoin localDir (directFilenameHTML (env.urlPath currentURL)))
          FsOp.createDirect st1).2)
      else
        (.ok (), (parseListing body).foldl
          (processLink env localDir depth recurse cc currentURL) st1)
    else
      (.ok (), (downloadFileM env cc currentURL
        (goJoin localDir (directFilenameNonHTML (env.urlPath currentURL)))
        FsOp.createDirect st1).2)

/-- Model of `Manager.mirrorURL`: stop silently at the depth bound;
return the context error when already cancelled; parse the URL (a parse
failure counts and is returned); fetch the listing and process it.
Recursion is fuelled; every theorem either holds for all fuel or
supplies enough. -/
def mirrorURLM (env : Env) (maxDepth : Int) (cc : Bool) :
    Nat → List Char → List Char → Int → CState → Except MErr Unit × CState
  | 0, _, _, _, st => (.ok (), st)
  | fuel + 1, currentURL, localDir, depth, st =>
    if depthReached maxDepth depth then (.ok (), st)
    else if ctxCancelled env st.clock then (.error .ctxErr, st)
    else if env.parseOkURL currentURL then
      mirrorFetched env localDir depth (mirrorURLM env maxDepth cc fuel) cc currentURL
        (netFetchDir env st currentURL) (logNet currentURL st)
    else (.error .parseErr, bumpErr st)

/-! ## Configuration (pkg/config/config.go) -/

/-- Model of `config.Target` (durations kept as the configured integer
seconds). -/
structure GoTarget where
  name : List Char
  url : List Char
  userAgent : List Char
  rateLimit : List Char
  retries : Int
  maxDepth : Int
  timeout : Int
  waitBetweenRequests : Int
  timestamping : Bool
  noClobber : Bool
  continueDownload : Bool
  checkChanges : Bool

/-- Model of `config.Defaults`. -/
structure GoDefaults where
  userAgent : List Char
  rateLimit : List Char
  retries : Int
  maxDepth : Int
  timeout : Int
  waitBetweenRequests : Int
  timestamping : Bool
  noClobber : Bool
  continueDownload : Bool
  checkChanges : Bool

/-- Model of `config.GetDefaults`. -/
def goGetDefaults : GoDefaults where
  userAgent := lchars "Mozilla/5.0 (compatible; HttpMirror/1.0; +https://github.com/jhofer-cloud/http-mirror) Friendly Educational Mirror"
  rateLimit := lchars "500k"
  retries := 3
  maxDepth := 5
  timeout := 30
  waitBetweenRequests := 1
  timestamping := true
  noClobber := true
  continueDownload := true
  checkChanges := true

/-- Model of `config.applyDefaults`: every zero-valued field of the
target is overwritten by the default. -/
def applyDefaultsM (t : GoTarget) (d : GoDefaults) : GoTarget :=
  let t := if t.userAgent = [] then { t with userAgent := d.userAgent } else t
  let t := if t.rateLimit = [] then { t with rateLimit := d.rateLimit } else t
  let t := if t.retries = 0 then { t with retries := d.retries } else t
  let t := if t.maxDepth = 0 then { t with maxDepth := d.maxDepth } else t
  let t := if t.timeout = 0 then { t with timeout := d.timeout } else t
  let t := if t.waitBetweenRequests = 0 then
             { t with waitBetweenRequests := d.waitBetweenRequests } else t
  let t := if t.timestamping = false then { t with timestamping := d.timestamping } else t
  let t := if t.noClobber = false then { t with noClobber := d.noClobber } else t
  let t := if t.continueDownload = false then
             { t with continueDownload := d.continueDownload } else t
  let t := if t.checkChanges = false then { t with checkChanges := d.checkChanges } else t
  t

/-- Fresh run state over the given initial filesystem. -/
def initState (fs0 : List Char → StatRes) : CState :=
  { stats := {}, fs := fs0, clock := 0, ops := [], net := [], dls := [] }

/-- Model of `Manager.MirrorTarget`: create the target directory
`<dataPath>/<name>`, reset the statistics, and walk from the root URL at
depth 0, returning the walk's error. -/
def mirrorTargetM (env : Env) (fuel : Nat) (dataPath : List Char) (t : GoTarget)
    (fs0 : List Char → StatRes) : Except MErr Unit × CState :=
  let targetDir := goJoin dataPath t.name
  let st0 := pushOp (FsOp.mkdirTarget targetDir) (initState fs0)
  mirrorURLM env t.maxDepth t.checkChanges fuel t.url targetDir 0 st0

/-! ## Concrete environment for the depth-bound claim: the chain
root → level1 → level2 → level3 → file. -/

/-- Remote world serving the four-level chain of listings. -/
def envChain : Env where
  fetchDir := fun u =>
    if u = lchars "http://h/" then
      some (lchars "text/html", lchars "<a href=\"level1/\">l</a>")
    else if u = lchars "http://h/level1/" then
      some (lchars "text/html", lchars "<a href=\"level2/\">l</a>")
    else if u = lchars "http://h/level1/level2/" then
      some (lchars "text/html", lchars "<a href=\"level3/\">l</a>")
    else if u = lchars "http://h/level1/level2/level3/" then
      some (lchars "text/html", lchars "<a href=\"file.txt\">f</a>")
    else none
  head := fun _ => none
  get := fun u =>
    if u = lchars "http://h/level1/level2/level3/file.txt" then some (4, some 7) else none
  resolve := fun b l => b ++ l
  urlPath := fun _ => []
  parseOkURL := fun _ => true
  parseOkLink := fun _ => true
  cancelAt := none
  nowTime := 100

/-- The empty local filesystem. -/
def emptyFs : List Char → StatRes := fun _ => .notFound

/-- The chain environment with the context deadline at network step 1:
the root listing fetch (step 0) succeeds, everything afterwards is
cancelled. -/
def envCancelMid : Env := { envChain with cancelAt := some 1 }

/-- The containment property claim C1 asserts of a write: subdirectory
`MkdirAll`s and file-link `os.Create`s must extend `dir`; writes of the
other call sites are outside the claim's scope. -/
def containedOp (dir : List Char) : FsOp → Prop
  | .mkdirSub p => goHasPrefix p dir = true
  | .createLink p => goHasPrefix p dir = true
  | _ => True

instance (dir : List Char) (op : FsOp) : Decidable (containedOp dir op) := by
  cases op <;> (unfold containedOp; infer_instance)

/-- A download call `(v, p)` is probe-safe against a filesystem when its
probe fails (then the client's own probe fails too and nothing is
written) or the probed metadata does not demand an update of the local
file at `p`. -/
def probeSafe (env : Env) (fs : List Char → StatRes) (v p : List Char) : Prop :=
  match env.head v with
  | none => True
  | some info => needsUpdateM (fs p) info ≠ .ok true

/-- A write that merely creates a directory for a subdirectory link
(allowed to repeat across runs without touching file content). -/
def isMkdirSub : FsOp → Prop
  | .mkdirSub _ => True
  | _ => False

instance (op : FsOp) : Decidable (isMkdirSub op) := by
  cases op <;> (unfold isMkdirSub; infer_instance)

/-- Remote consistency: whenever a probe answers, the content `GET`
answers too, with the same last-modified value and a body of exactly the
reported size. -/
def Consistent (env : Env) : Prop :=
  ∀ v info, env.head v = some info →
    ∃ n : Nat, env.get v = some (n, info.lastModified) ∧ info.size = Int.ofNat n

/-- The logged download calls target pairwise distinct local paths,
except for repeats of the very same URL. -/
def PairInj (D : List (List Char × List Char)) : Prop :=
  ∀ x ∈ D, ∀ y ∈ D, x.2 = y.2 → x.1 = y.1

instance (D : List (List Char × List Char)) : Decidable (PairInj D) := by
  unfold PairInj; infer_instance

/-- The invariant run 1 maintains: every logged call is probe-safe
against the current filesystem. -/
def SafeInv (env : Env) (s : CState) : Prop :=
  ∀ v p, (v, p) ∈ s.dls → probeSafe env s.fs v p

/-- A remote tree where two file links (`a` and `sub/a`) collide on the
same local basename `a`, with different sizes and timestamps. -/
def envCollide : Env where
  fetchDir := fun u =>
    if u = lchars "http://h/" then
      some (lchars "text/html", lchars "<a href=\"a\">x</a><a href=\"sub/a\">y</a>")
    else none
  head := fun u =>
    if u = lchars "http://h/a" then some ⟨some 200, 5⟩
    else if u = lchars "http://h/sub/a" then some ⟨some 100, 6⟩
    else none
  get := fun u =>
    if u = lchars "http://h/a" then some (5, some 200)
    else if u = lchars "http://h/sub/a" then some (6, some 100)
    else none
  resolve := fun b l => b ++ l
  urlPath := fun _ => []
  parseOkURL := fun _ => true
  parseOkLink := fun _ => true
  cancelAt := none
  nowTime := 1000

/-- A one-file consistent remote used to witness the amended C5
theorem. -/
def envOneFile : Env where
  fetchDir := fun u =>
    if u = lchars "http://h/" then
      some (lchars "text/html", lchars "<a href=\"a.txt\">x</a>")
    else none
  head := fun u => if u = lchars "http://h/a.txt" then some ⟨some 50, 3⟩ else none
  get := fun u => if u = lchars "http://h/a.txt" then some (3, some 50) else none
  resolve := fun b l => b ++ l
  urlPath := fun _ => []
  parseOkURL := fun _ => true
  parseOkLink := fun _ => true
  cancelAt := none
  nowTime := 999

/-! ## Theorems -/

/-! Sanity checks of the path helpers against Go's documented behaviour. -/

example : goClean (lchars "/data//x/f") = lchars "/data/x/f" := by decide

example : goClean (lchars "a/../../b") = lchars "../b" := by decide

example : goClean (lchars "/../a") = lchars "/a" := by decide

example : goBase (lchars "/") = lchars "/" := by decide

example : goBase (lchars "/foo/") = lchars "foo" := by decide

example : goBase (lchars "") = lchars "." := by decide

example : goBase (lchars "./") = lchars "." := by decide

example : goBase (lchars "a/b") = lchars "b" := by decide

example : goDir (lchars "/a/b") = lchars "/a" := by decide

example : goDir (lchars "b") = lchars "." := by decide

example : goJoin (lchars "/data/t") (lchars "f.txt") = lchars "/data/t/f.txt" := by decide

example : goJoin (lchars "/data/t") (lchars "/") = lchars "/data/t" := by decide

example : goJoin (lchars "/data/t") (lchars ".") = lchars "/data/t" := by decide

example : isValidFilename (lchars "file1.txt") = true := by decide

example : isValidFilename (lchars "a/b") = false := by decide

example : isValidFilename (lchars "a..b") = false := by decide

example : isValidFilename (lchars "  ") = false := by decide

example : isValidFilename (lchars ".") = true := by decide

/-- `goTrimSpace` returns the empty string exactly on all-whitespace input. -/
theorem goTrimSpace_eq_nil_iff (n : List Char) :
    goTrimSpace n = [] ↔ ∀ c ∈ n, goIsSpace c := by
  unfold goTrimSpace
  rw [List.reverse_eq_nil_iff, List.dropWhile_eq_nil_iff]
  constructor
  · intro h c hc
    have hsplit : c ∈ n.takeWhile goIsSpace ++ n.dropWhile goIsSpace := by
      rw [List.takeWhile_append_dropWhile]; exact hc
    rcases List.mem_append.1 hsplit with h1 | h2
    · exact List.mem_takeWhile_imp h1
    · exact h c (List.mem_reverse.2 h2)
  · intro h c hc
    exact h c ((List.dropWhile_sublist _).subset (List.mem_reverse.1 hc))

/-- **C9** — Name validation (`isValidFilename`, pkg/mirror/manager.go)
rejects a candidate basename if and only if it is empty or
whitespace-only, or contains `..`, `/`, or `\`; every other name is
accepted.  Confirms the claim. -/
theorem C9_isValidFilename_charact (n : List Char) :
    isValidFilename n = false ↔
      (n = [] ∨ (∀ c ∈ n, goIsSpace c) ∨
       goContains n (lchars "..") = true ∨ goContains n (lchars "/") = true ∨
       goContains n (lchars "\\") = true) := by
  unfold isValidFilename
  split
  case isTrue h =>
    simp only [true_iff]
    rcases h with h | h
    · exact Or.inl h
    · exact Or.inr (Or.inl ((goTrimSpace_eq_nil_iff n).1 h))
  case isFalse h =>
    split
    case isTrue h2 =>
      simp only [true_iff]
      rcases h2 with hc | hc | hc
      · exact Or.inr (Or.inr (Or.inl hc))
      · exact Or.inr (Or.inr (Or.inr (Or.inl hc)))
      · exact Or.inr (Or.inr (Or.inr (Or.inr hc)))
    case isFalse h2 =>
      constructor
      · intro hc; exact absurd hc (by decide)
      · intro hc; exfalso
        rcases hc with hx | hx | hx | hx | hx
        · exact h (Or.inl hx)
        · exact h (Or.inr ((goTrimSpace_eq_nil_iff n).2 hx))
        · exact h2 (Or.inl hx)
        · exact h2 (Or.inr (Or.inl hx))
        · exact h2 (Or.inr (Or.inr hx))

/-- **C3 counterexample** — a local file of size 5 and modification time
100, against a remote probe with no last-modified header and reported
size 0: the sizes differ (5 ≠ 0), so the claim (which says the size
comparison applies "including when the remote reported size is 0")
demands `true`, but `NeedsUpdate` returns `false` because its size check
is guarded by `remoteInfo.Size > 0`. -/
theorem C3_needsUpdate_size_zero_cex :
    needsUpdateM (.found 100 5) ⟨none, 0⟩ = .ok false ∧
    specNeedsUpdateClaim (.found 100 5) ⟨none, 0⟩ = some true ∧
    (5 : Int) ≠ 0 := by
  refine ⟨rfl, by decide, by decide⟩

/-- **C3 (amended)** — `NeedsUpdate` evaluates, in order: local file
absent → `true`; remote last-modified strictly after the local
modification time → `true`; remote reported size positive and different
from the local size → `true`; otherwise `false`; a stat failure other
than not-found is an error.  (Amendment: the size comparison is guarded
by a positive remote size, so a remote size of 0 never triggers it.) -/
theorem C3_needsUpdate_amended (st : StatRes) (info : RFileInfo) :
    needsUpdateM st info = decisionToExcept (specNeedsUpdateAmended st info) := by
  cases st with
  | notFound => rfl
  | statErr => rfl
  | found m sz =>
    unfold needsUpdateM specNeedsUpdateAmended
    by_cases h1 : remoteNewer m info.lastModified
    · simp [h1, decisionToExcept]
    · by_cases h2 : 0 < info.size ∧ sz ≠ info.size
      · simp [h1, h2, decisionToExcept]
      · simp [h1, h2, decisionToExcept]

/-- The code's filter agrees with the spec's four exclusion rules. -/
theorem keepLink_iff (l : List Char) : keepLink l = true ↔ SurvivesSpec l := by
  unfold keepLink SurvivesSpec
  split
  case isTrue h1 =>
    simp only [Bool.or_eq_true, beq_iff_eq] at h1
    constructor
    · intro hc; exact absurd hc (by decide)
    · rintro ⟨s1, -, -, -⟩; exact absurd (by tauto) s1
  case isFalse h1 =>
    split
    case isTrue h2 =>
      simp only [Bool.or_eq_true, beq_iff_eq] at h2
      constructor
      · intro hc; exact absurd hc (by decide)
      · rintro ⟨-, s2, -, -⟩; exact absurd (by tauto) s2
    case isFalse h2 =>
      split
      case isTrue h3 =>
        simp only [Bool.or_eq_true, beq_iff_eq] at h3
        constructor
        · intro hc; exact absurd hc (by decide)
        · rintro ⟨-, -, s3, -⟩; exact absurd (by tauto) s3
      case isFalse h3 =>
        split
        case isTrue h4 =>
          simp only [Bool.or_eq_true, beq_iff_eq] at h4
          constructor
          · intro hc; exact absurd hc (by decide)
          · rintro ⟨-, -, -, s4⟩
            rcases h4 with h | h
            · exact (s4 (Or.inl h)).elim
            · exact (s4 (Or.inr ((goTrimSpace_eq_nil_iff l).1 h))).elim
        case isFalse h4 =>
          simp only [Bool.or_eq_true, beq_iff_eq, not_or] at h1 h2 h3 h4
          refine iff_of_true rfl ⟨?_, ?_, ?_, ?_⟩
          · tauto
          · tauto
          · tauto
          · rintro (h | h)
            · exact h4.1 h
            · exact h4.2 ((goTrimSpace_eq_nil_iff l).2 h)

set_option maxRecDepth 100000 in
/-- **C2** — Link extraction returns exactly the extracted hrefs that
survive the four exclusion rules, in document order; on a listing whose
candidate links are `file1.txt`, `subdir/`, `../`, `?order=name`,
`mailto:a@b.com`, `javascript:void(0)` it returns exactly
`["file1.txt", "subdir/"]` in that order.  Confirms the claim. -/
theorem C2_parseDirectoryListing_filter :
    (∀ body, parseListing body =
      (scanHrefs body.length body).filter (fun l => decide (SurvivesSpec l))) ∧
    scanHrefs sampleListingBody.length sampleListingBody =
      [lchars "file1.txt", lchars "subdir/", lchars "../", lchars "?order=name",
       lchars "mailto:a@b.com", lchars "javascript:void(0)"] ∧
    parseListing sampleListingBody = [lchars "file1.txt", lchars "subdir/"] := by
  refine ⟨?_, by decide, by decide⟩
  intro body
  unfold parseListing
  refine List.filter_congr (fun l _ => ?_)
  cases hk : keepLink l
  · have hns : ¬ SurvivesSpec l := fun hs => by
      have := (keepLink_iff l).2 hs
      rw [hk] at this
      exact Bool.false_ne_true this
    simp [hns]
  · have hs : SurvivesSpec l := (keepLink_iff l).1 hk
    simp [hs]

/-- **C6** — Crawling the chain root→level1→level2→level3→file with max
depth 2 creates the `level1` and `level2` directories and nothing else
(no `level3` directory, no file): the only writes are the two `MkdirAll`
calls, the walk returns no error and counts no error, and only the root
and `level1` listings are ever fetched.  A max depth of `-1` makes the
depth bound false at every depth.  Confirms the claim. -/
theorem C6_max_depth_chain :
    ((mirrorURLM envChain 2 true 10 (lchars "http://h/") (lchars "/data/t") 0
        (initState emptyFs)).1 = Except.ok () ∧
     (mirrorURLM envChain 2 true 10 (lchars "http://h/") (lchars "/data/t") 0
        (initState emptyFs)).2.ops =
       [FsOp.mkdirSub (lchars "/data/t/level1"),
        FsOp.mkdirSub (lchars "/data/t/level1/level2")] ∧
     (mirrorURLM envChain 2 true 10 (lchars "http://h/") (lchars "/data/t") 0
        (initState emptyFs)).2.stats = {} ∧
     (mirrorURLM envChain 2 true 10 (lchars "http://h/") (lchars "/data/t") 0
        (initState emptyFs)).2.net =
       [lchars "http://h/", lchars "http://h/level1/"]) ∧
    (∀ d : Int, depthReached (-1) d = false) :=
  ⟨⟨rfl, by decide, by decide, by decide⟩, fun _ => rfl⟩

/-- **C10** — A target whose `MaxDepth` is 0, passed directly to
`MirrorTarget`, performs no HTTP request and writes no file: the walk
returns immediately with no error, leaving exactly the one `MkdirAll`
of the (empty) target directory, untouched statistics, an empty network
log and an unchanged filesystem; and this state is unreachable through
configuration loading, since `applyDefaults` overwrites a zero
`MaxDepth` with the default 5.  Confirms the claim. -/
theorem C10_maxdepth_zero_noop :
    (∀ (env : Env) (fuel : Nat) (dataPath : List Char) (t : GoTarget)
        (fs0 : List Char → StatRes),
      mirrorTargetM env fuel dataPath { t with maxDepth := 0 } fs0 =
        (Except.ok (),
         pushOp (FsOp.mkdirTarget (goJoin dataPath t.name)) (initState fs0))) ∧
    (∀ t : GoTarget,
      (applyDefaultsM { t with maxDepth := 0 } goGetDefaults).maxDepth = 5) ∧
    (5 : Int) ≠ 0 := by
  refine ⟨?_, ?_, by decide⟩
  · intro env fuel dataPath t fs0
    cases fuel with
    | zero => rfl
    | succ n => rfl
  · intro t
    simp [applyDefaultsM, goGetDefaults, apply_ite GoTarget.maxDepth]

/-- **C8 counterexample** — for the bare root path `/` in the
HTML-with-zero-links branch, the local filename is `/`, not
`index.html` as the claim states for both branches (only the non-HTML
branch special-cases `/`); joining it to the local directory collapses
to the directory itself. -/
theorem C8_bare_root_cex :
    directFilenameHTML (lchars "/") = lchars "/" ∧
    directFilenameHTML (lchars "/") ≠ lchars "index.html" ∧
    directFilenameNonHTML (lchars "/") = lchars "index.html" ∧
    goJoin (lchars "/data/t") (directFilenameHTML (lchars "/")) = lchars "/data/t" := by
  refine ⟨by decide, by decide, by decide, by decide⟩

/-- **C8 (amended)** — the two default-filename rules agree — both fall
back to `index.html` on an empty path or a bare (dot) directory path —
except when the path's basename is the bare root `/`: there only the
non-HTML branch defaults to `index.html`, while the HTML-with-zero-links
branch keeps `/` (so its local path degenerates to the directory
itself). -/
theorem C8_default_filename_amended :
    (∀ p : List Char,
       directFilenameNonHTML p = directFilenameHTML p ∨
       (goBase p = lchars "/" ∧ directFilenameNonHTML p = lchars "index.html" ∧
        directFilenameHTML p = lchars "/")) ∧
    directFilenameHTML [] = lchars "index.html" ∧
    directFilenameNonHTML [] = lchars "index.html" ∧
    directFilenameHTML (lchars "./") = lchars "index.html" ∧
    directFilenameNonHTML (lchars "./") = lchars "index.html" ∧
    directFilenameNonHTML (lchars "/") = lchars "index.html" := by
  refine ⟨?_, by decide, by decide, by decide, by decide, by decide⟩
  intro p
  unfold directFilenameHTML directFilenameNonHTML
  by_cases h1 : goBase p = []
  · left; simp [h1]
  · by_cases h2 : goBase p = lchars "."
    · left; simp [h1, h2]
    · by_cases h3 : goBase p = lchars "/"
      · right
        refine ⟨h3, ?_, ?_⟩ <;> rw [h3] <;> decide
      · left; simp [h1, h2, h3]

/-- **C4 counterexample** — with the deadline firing right after the
root fetch, the walk enters `level1` (its `MkdirAll` happens), the
recursive call observes the cancellation — nothing further is fetched —
yet the root call returns `ok`: the parent logs and swallows the
subdirectory's error (manager.go lines 188–190), so the cancellation is
*not* surfaced as the run's terminal error. -/
theorem C4_swallowed_cancellation_cex :
    (mirrorURLM envCancelMid 5 true 10 (lchars "http://h/") (lchars "/data/t") 0
       (initState emptyFs)).1 = Except.ok () ∧
    (mirrorURLM envCancelMid 5 true 10 (lchars "http://h/") (lchars "/data/t") 0
       (initState emptyFs)).2.ops = [FsOp.mkdirSub (lchars "/data/t/level1")] ∧
    (mirrorURLM envCancelMid 5 true 10 (lchars "http://h/") (lchars "/data/t") 0
       (initState emptyFs)).2.net = [lchars "http://h/"] ∧
    envCancelMid.cancelAt = some 1 ∧
    (mirrorURLM envCancelMid 5 true 10 (lchars "http://h/") (lchars "/data/t") 0
       (initState emptyFs)).2.clock = 1 :=
  ⟨rfl, by decide, by decide, by decide, by decide⟩

/-- **C4 (amended)** — a cancellation signal that has already fired when
`mirrorURL` is entered (and the depth bound has not been reached, which
is checked first) makes that call return the context error at once, with
the state untouched; but the error propagates only one level: a parent
directory swallows it (see the counterexample), so only cancellation
observed by the root-level call becomes the run's terminal error. -/
theorem C4_cancelled_entry_returns_ctx_err (env : Env) (m : Int) (cc : Bool) (f : Nat)
    (u dir : List Char) (depth : Int) (st : CState)
    (hd : depthReached m depth = false)
    (hc : ctxCancelled env st.clock = true) :
    mirrorURLM env m cc (f + 1) u dir depth st = (Except.error MErr.ctxErr, st) := by
  unfold mirrorURLM
  simp [hd, hc]

/-- Witness for the amended C4 theorem at a concrete input. -/
theorem C4_cancelled_entry_returns_ctx_err_witness :
    mirrorURLM envCancelMid 5 true 3 (lchars "http://h/level1/") (lchars "/data/t/level1") 1
      { initState emptyFs with clock := 1 } =
      (Except.error MErr.ctxErr, { initState emptyFs with clock := 1 }) :=
  C4_cancelled_entry_returns_ctx_err envCancelMid 5 true 2 (lchars "http://h/level1/")
    (lchars "/data/t/level1") 1 { initState emptyFs with clock := 1 } (by decide) (by decide)

/-- **C7 counterexample** — the subdirectory link `a/b/` survives the
listing filter, its basename `a/b` fails name validation (it contains
`/`), and `mirrorURL` skips it *without* touching the error counter
(manager.go lines 169–172 `continue` without `stats.Errors++`),
contradicting the claim that every security rejection increments the
counter. -/
theorem C7_name_rejection_no_error_cex :
    keepLink (lchars "a/b/") = true ∧
    isValidFilename (lchars "a/b") = false ∧
    processLink envChain (lchars "/data/t") 0 (fun _ _ _ s => (Except.ok (), s)) true
      (lchars "http://h/") (initState emptyFs) (lchars "a/b/") = initState emptyFs ∧
    (initState emptyFs).stats.errors = 0 :=
  ⟨by decide, by decide, rfl, by decide⟩

/-- **C7 (amended)** — every security rejection is non-fatal (the loop
state is returned and the walk continues with the remaining links), but
only the two *path-containment* failures increment the error counter; a
failed *name validation* of a subdirectory or file basename merely skips
the link, leaving the statistics untouched. -/
theorem C7_security_rejection_amended :
    (∀ (env : Env) (localDir : List Char) (depth : Int) rec (cc : Bool)
        (base : List Char) (st : CState) (link : List Char),
      env.parseOkLink link = true →
      (goContains link (lchars "..") || goContains link (lchars "Parent Directory")) = false →
      goHasSuffix link (lchars "/") = true →
      isValidFilename (goTrimSuffix link (lchars "/")) = false →
      processLink env localDir depth rec cc base st link = st) ∧
    (∀ (env : Env) (localDir : List Char) (depth : Int) rec (cc : Bool)
        (base : List Char) (st : CState) (link : List Char),
      env.parseOkLink link = true →
      (goContains link (lchars "..") || goContains link (lchars "Parent Directory")) = false →
      goHasSuffix link (lchars "/") = false →
      isValidFilename (goBase link) = false →
      processLink env localDir depth rec cc base st link = st) ∧
    (∀ (env : Env) (localDir : List Char) (depth : Int) rec (cc : Bool)
        (base : List Char) (st : CState) (link : List Char),
      env.parseOkLink link = true →
      (goContains link (lchars "..") || goContains link (lchars "Parent Directory")) = false →
      goHasSuffix link (lchars "/") = true →
      isValidFilename (goTrimSuffix link (lchars "/")) = true →
      goHasPrefix (goJoin localDir (goTrimSuffix link (lchars "/"))) localDir = false →
      processLink env localDir depth rec cc base st link = bumpErr st) ∧
    (∀ (env : Env) (localDir : List Char) (depth : Int) rec (cc : Bool)
        (base : List Char) (st : CState) (link : List Char),
      env.parseOkLink link = true →
      (goContains link (lchars "..") || goContains link (lchars "Parent Directory")) = false →
      goHasSuffix link (lchars "/") = false →
      isValidFilename (goBase link) = true →
      goHasPrefix (goJoin localDir (goBase link)) localDir = false →
      processLink env localDir depth rec cc base st link = bumpErr st) := by
  refine ⟨?_, ?_, ?_, ?_⟩ <;>
    (intro env localDir depth rec cc base st link h1 h2 h3 h4
     first
      | (intro h5; unfold processLink; simp [h1, h2, h3, h4, h5])
      | (unfold processLink; simp [h1, h2, h3, h4]))

/-- Witness for the amended C7 theorem: each of its four statements
applied at a concrete link and directory. -/
theorem C7_security_rejection_amended_witness :
    processLink envChain (lchars "/data/t") 0 (fun _ _ _ s => (Except.ok (), s)) true
      (lchars "http://h/") (initState emptyFs) (lchars "a/b/") = initState emptyFs ∧
    processLink envChain (lchars "/data/t") 0 (fun _ _ _ s => (Except.ok (), s)) true
      (lchars "http://h/") (initState emptyFs) (lchars "a\\b") = initState emptyFs ∧
    processLink envChain (lchars "/data//x") 0 (fun _ _ _ s => (Except.ok (), s)) true
      (lchars "http://h/") (initState emptyFs) (lchars "sub/") = bumpErr (initState emptyFs) ∧
    processLink envChain (lchars "/data//x") 0 (fun _ _ _ s => (Except.ok (), s)) true
      (lchars "http://h/") (initState emptyFs) (lchars "f.txt") = bumpErr (initState emptyFs) :=
  ⟨C7_security_rejection_amended.1 envChain (lchars "/data/t") 0 _ true (lchars "http://h/")
      (initState emptyFs) (lchars "a/b/") (by decide) (by decide) (by decide) (by decide),
   C7_security_rejection_amended.2.1 envChain (lchars "/data/t") 0 _ true (lchars "http://h/")
      (initState emptyFs) (lchars "a\\b") (by decide) (by decide) (by decide) (by decide),
   C7_security_rejection_amended.2.2.1 envChain (lchars "/data//x") 0 _ true (lchars "http://h/")
      (initState emptyFs) (lchars "sub/") (by decide) (by decide) (by decide) (by decide)
      (by decide),
   C7_security_rejection_amended.2.2.2 envChain (lchars "/data//x") 0 _ true (lchars "http://h/")
      (initState emptyFs) (lchars "f.txt") (by decide) (by decide) (by decide) (by decide)
      (by decide)⟩

/-! ## Path containment of the crawl's writes (claim C1)

State-projection lemmas for the elementary state transformers, then an
induction over the walk showing that every `MkdirAll` for a subdirectory
link and every `os.Create` for a file link targets a path that extends
the directory the walk was started in. -/

@[simp] theorem ops_pushOp (op : FsOp) (st : CState) :
    (pushOp op st).ops = st.ops ++ [op] := rfl

@[simp] theorem ops_logNet (u : List Char) (st : CState) : (logNet u st).ops = st.ops := rfl

@[simp] theorem ops_logDl (u p : List Char) (st : CState) : (logDl u p st).ops = st.ops := rfl

@[simp] theorem ops_setFile (p : List Char) (mt sz : Int) (st : CState) :
    (setFile p mt sz st).ops = st.ops := rfl

@[simp] theorem ops_bumpErr (st : CState) : (bumpErr st).ops = st.ops := rfl

@[simp] theorem ops_bumpSkipped (st : CState) : (bumpSkipped st).ops = st.ops := rfl

@[simp] theorem ops_bumpDownloaded (sz : Int) (st : CState) :
    (bumpDownloaded sz st).ops = st.ops := rfl

/-- Byte-prefix order is transitive. -/
theorem hasPre_trans {a b c : List Char} (h1 : hasPre a b = true) (h2 : hasPre b c = true) :
    hasPre a c = true := by
  induction a generalizing b c with
  | nil => rfl
  | cons x xs ih =>
    cases b with
    | nil => simp [hasPre] at h1
    | cons y ys =>
      cases c with
      | nil => simp [hasPre] at h2
      | cons z zs =>
        simp only [hasPre, Bool.and_eq_true, beq_iff_eq] at h1 h2 ⊢
        exact ⟨h1.1.trans h2.1, ih h1.2 h2.2⟩

/-- Containment is monotone along nested directories. -/
theorem containedOp_mono {d1 d2 : List Char} (h : goHasPrefix d2 d1 = true) (op : FsOp)
    (hc : containedOp d2 op) : containedOp d1 op := by
  cases op with
  | mkdirSub p => exact hasPre_trans h hc
  | createLink p => exact hasPre_trans h hc
  | mkdirTarget p => trivial
  | mkdirParent p => trivial
  | createDirect p => trivial

@[simp] theorem clientFinish_ops (env : Env) (lp : List Char) (ans : Option (Nat × Option Int))
    (s3 : CState) : (clientFinish env lp ans s3).2.ops = s3.ops := by
  cases ans with
  | none => rfl
  | some v => cases v with | mk blen lm => rfl

/-- The unconditional client download only writes the parent `MkdirAll`
and the tagged `os.Create` of the given local path. -/
theorem clientDoDownload_ops (env : Env) (url lp : List Char) (tag : List Char → FsOp)
    (st : CState) :
    ∀ op ∈ (clientDoDownload env url lp tag st).2.ops,
      op ∈ st.ops ∨ op = FsOp.mkdirParent (goDir lp) ∨ op = tag lp := by
  intro op hop
  simp only [clientDoDownload, clientFinish_ops, ops_logNet, ops_setFile, ops_pushOp,
    List.append_assoc, List.mem_append, List.mem_singleton] at hop
  tauto

/-- The probe-and-decide part of the client download only writes the
parent `MkdirAll` and the tagged `os.Create`. -/
theorem clientProbe_ops (env : Env) (url lp : List Char) (tag : List Char → FsOp)
    (ans : Option RFileInfo) (s1 : CState) :
    ∀ op ∈ (clientProbe env url lp tag ans s1).2.ops,
      op ∈ s1.ops ∨ op = FsOp.mkdirParent (goDir lp) ∨ op = tag lp := by
  intro op hop
  cases ans with
  | none => exact Or.inl hop
  | some info =>
    simp only [clientProbe] at hop
    split at hop
    · exact Or.inl hop
    · exact Or.inl hop
    · exact clientDoDownload_ops env url lp tag s1 op hop

/-- `Client.DownloadFile` only writes the parent `MkdirAll` and the
tagged `os.Create` of the given local path. -/
theorem clientDownloadM_ops (env : Env) (cc : Bool) (url lp : List Char)
    (tag : List Char → FsOp) (st : CState) :
    ∀ op ∈ (clientDownloadM env cc url lp tag st).2.ops,
      op ∈ st.ops ∨ op = FsOp.mkdirParent (goDir lp) ∨ op = tag lp := by
  intro op hop
  unfold clientDownloadM at hop
  cases cc with
  | true =>
    rw [if_pos rfl] at hop
    have := clientProbe_ops env url lp tag (netHead env st url) (logNet url st) op hop
    simpa using this
  | false =>
    rw [if_neg (by decide)] at hop
    exact clientDoDownload_ops env url lp tag st op hop

/-- The download tail only writes the parent `MkdirAll` and the tagged
`os.Create` of the given local path. -/
theorem runClientM_ops (env : Env) (cc : Bool) (url lp : List Char)
    (tag : List Char → FsOp) (st : CState) :
    ∀ op ∈ (runClientM env cc url lp tag st).2.ops,
      op ∈ st.ops ∨ op = FsOp.mkdirParent (goDir lp) ∨ op = tag lp := by
  intro op hop
  unfold runClientM at hop
  split at hop <;>
    (rename_i heq
     simp only [ops_bumpErr, ops_bumpDownloaded] at hop
     have := clientDownloadM_ops env cc url lp tag st op
     rw [heq] at this
     exact this hop)

/-- The probe-and-decide part of `Manager.downloadFile` only writes the
parent `MkdirAll` and the tagged `os.Create`. -/
theorem mirrorProbe_ops (env : Env) (cc : Bool) (url lp : List Char)
    (tag : List Char → FsOp) (ans : Option RFileInfo) (s1 : CState) :
    ∀ op ∈ (mirrorProbe env cc url lp tag ans s1).2.ops,
      op ∈ s1.ops ∨ op = FsOp.mkdirParent (goDir lp) ∨ op = tag lp := by
  intro op hop
  cases ans with
  | none => exact runClientM_ops env cc url lp tag s1 op hop
  | some info =>
    simp only [mirrorProbe] at hop
    split at hop
    · exact runClientM_ops env cc url lp tag s1 op hop
    · exact runClientM_ops env cc url lp tag s1 op hop
    · simp only [ops_bumpSkipped] at hop; exact Or.inl hop

/-- `Manager.downloadFile` only writes the parent `MkdirAll` and the
tagged `os.Create` of the given local path. -/
theorem downloadFileM_ops (env : Env) (cc : Bool) (url lp : List Char)
    (tag : List Char → FsOp) (st : CState) :
    ∀ op ∈ (downloadFileM env cc url lp tag st).2.ops,
      op ∈ st.ops ∨ op = FsOp.mkdirParent (goDir lp) ∨ op = tag lp := by
  intro op hop
  unfold downloadFileM at hop
  cases cc with
  | true =>
    rw [if_pos rfl] at hop
    have := mirrorProbe_ops env true url lp tag (netHead env (logDl url lp st) url)
      (logNet url (logDl url lp st)) op hop
    simpa using this
  | false =>
    rw [if_neg (by decide)] at hop
    have := runClientM_ops env false url lp tag (logDl url lp st) op hop
    simpa using this

/-- The link loop's body preserves containment: whatever it writes
beyond the incoming log extends the current directory (given that the
recursive call does the same for its subdirectory). -/
theorem processLink_ops (env : Env) (localDir : List Char) (depth : Int)
    (rec : List Char → List Char → Int → CState → Except MErr Unit × CState)
    (cc : Bool) (base : List Char) (st : CState) (link : List Char)
    (hrec : ∀ (u d : List Char) (dep : Int) (s : CState),
      ∀ op ∈ (rec u d dep s).2.ops, op ∈ s.ops ∨ containedOp d op) :
    ∀ op ∈ (processLink env localDir depth rec cc base st link).ops,
      op ∈ st.ops ∨ containedOp localDir op := by
  intro op hop
  simp only [processLink] at hop
  split at hop
  case isTrue hparse =>
    split at hop
    case isTrue hpd => exact Or.inl hop
    case isFalse hpd =>
      split at hop
      case isTrue hslash =>
        split at hop
        case isTrue hvalid =>
          split at hop
          case isTrue hpre =>
            rcases hrec _ _ _ _ op hop with h | h
            · simp only [ops_pushOp, List.mem_append, List.mem_singleton] at h
              rcases h with h | h
              · exact Or.inl h
              · subst h; exact Or.inr hpre
            · exact Or.inr (containedOp_mono hpre op h)
          case isFalse hpre => exact Or.inl hop
        case isFalse hvalid => exact Or.inl hop
      case isFalse hslash =>
        split at hop
        case isTrue hvalid =>
          split at hop
          case isTrue hpre =>
            rcases downloadFileM_ops env cc (env.resolve base link)
                (goJoin localDir (goBase link)) FsOp.createLink st op hop with h | h | h
            · exact Or.inl h
            · subst h; exact Or.inr trivial
            · subst h; exact Or.inr hpre
          case isFalse hpre => exact Or.inl hop
        case isFalse hvalid => exact Or.inl hop
  case isFalse hparse => exact Or.inl hop

/-- Folding a containment-preserving step over a link list preserves
containment. -/
theorem foldl_ops_inv (dir : List Char) (f : CState → List Char → CState)
    (hf : ∀ s l, ∀ op ∈ (f s l).ops, op ∈ s.ops ∨ containedOp dir op) :
    ∀ (links : List (List Char)) (st : CState),
      ∀ op ∈ (links.foldl f st).ops, op ∈ st.ops ∨ containedOp dir op := by
  intro links
  induction links with
  | nil => intro st op hop; exact Or.inl hop
  | cons l ls ih =>
    intro st op hop
    rcases ih (f st l) op hop with h | h
    · exact hf st l op h
    · exact Or.inr h

/-- Processing a fetched response preserves containment. -/
theorem mirrorFetched_ops (env : Env) (localDir : List Char) (depth : Int)
    (rec : List Char → List Char → Int → CState → Except MErr Unit × CState)
    (cc : Bool) (u : List Char) (ans : Option (List Char × List Char)) (st1 : CState)
    (hrec : ∀ (u' d : List Char) (dep : Int) (s : CState),
      ∀ op ∈ (rec u' d dep s).2.ops, op ∈ s.ops ∨ containedOp d op) :
    ∀ op ∈ (mirrorFetched env localDir depth rec cc u ans st1).2.ops,
      op ∈ st1.ops ∨ containedOp localDir op := by
  intro op hop
  cases ans with
  | none =>
    simp only [mirrorFetched, ops_bumpErr] at hop
    exact Or.inl hop
  | some v =>
    cases v with
    | mk ctype body =>
      simp only [mirrorFetched] at hop
      split at hop
      case isTrue hhtml =>
        split at hop
        case isTrue hempty =>
          rcases downloadFileM_ops env cc u
              (goJoin localDir (directFilenameHTML (env.urlPath u)))
              FsOp.createDirect st1 op hop with h | h | h
          · exact Or.inl h
          · subst h; exact Or.inr trivial
          · subst h; exact Or.inr trivial
        case isFalse hempty =>
          exact foldl_ops_inv localDir _
            (fun s l => processLink_ops env localDir depth rec cc u s l hrec)
            (parseListing body) st1 op hop
      case isFalse hhtml =>
        rcases downloadFileM_ops env cc u
            (goJoin localDir (directFilenameNonHTML (env.urlPath u)))
            FsOp.createDirect st1 op hop with h | h | h
        · exact Or.inl h
        · subst h; exact Or.inr trivial
        · subst h; exact Or.inr trivial

/-- The whole walk preserves containment: every write it adds beyond
the incoming log satisfies `containedOp` for the directory it started
in. -/
theorem mirrorURLM_ops (env : Env) (m : Int) (cc : Bool) :
    ∀ (fuel : Nat) (u dir : List Char) (depth : Int) (st : CState),
      ∀ op ∈ (mirrorURLM env m cc fuel u dir depth st).2.ops,
        op ∈ st.ops ∨ containedOp dir op := by
  intro fuel
  induction fuel with
  | zero => intro u dir depth st op hop; exact Or.inl hop
  | succ n ih =>
    intro u dir depth st op hop
    simp only [mirrorURLM] at hop
    split at hop
    · exact Or.inl hop
    · split at hop
      · exact Or.inl hop
      · split at hop
        · have := mirrorFetched_ops env dir depth (mirrorURLM env m cc n) cc u
            (netFetchDir env st u) (logNet u st)
            (fun u' d' dep s => ih u' d' dep s) op hop
          simpa using this
        · simp only [ops_bumpErr] at hop
          exact Or.inl hop

/-- **C1** — Every directory creation for a subdirectory link and every
file creation for a file link during a walk started at `dir` targets a
path having `dir` as a prefix (hence inside the target's root when the
walk starts there); and a link whose resolved local path fails the
containment check is skipped without any write, non-fatally, with only
the error counter incremented.  Confirms the claim.  (The direct-file
branch's write and the client's parent-`MkdirAll` are outside the
claim's enumeration and therefore unconstrained by `containedOp`.) -/
theorem C1_containment :
    (∀ (env : Env) (m : Int) (cc : Bool) (fuel : Nat) (u dir : List Char) (depth : Int)
        (st : CState) (op : FsOp),
      op ∈ (mirrorURLM env m cc fuel u dir depth st).2.ops →
      op ∈ st.ops ∨ containedOp dir op) ∧
    (∀ (env : Env) (localDir : List Char) (depth : Int) rec (cc : Bool)
        (base : List Char) (st : CState) (link : List Char),
      env.parseOkLink link = true →
      (goContains link (lchars "..") || goContains link (lchars "Parent Directory")) = false →
      goHasSuffix link (lchars "/") = true →
      isValidFilename (goTrimSuffix link (lchars "/")) = true →
      goHasPrefix (goJoin localDir (goTrimSuffix link (lchars "/"))) localDir = false →
      processLink env localDir depth rec cc base st link = bumpErr st) ∧
    (∀ (env : Env) (localDir : List Char) (depth : Int) rec (cc : Bool)
        (base : List Char) (st : CState) (link : List Char),
      env.parseOkLink link = true →
      (goContains link (lchars "..") || goContains link (lchars "Parent Directory")) = false →
      goHasSuffix link (lchars "/") = false →
      isValidFilename (goBase link) = true →
      goHasPrefix (goJoin localDir (goBase link)) localDir = false →
      processLink env localDir depth rec cc base st link = bumpErr st) := by
  refine ⟨?_, ?_, ?_⟩
  · intro env m cc fuel u dir depth st op hop
    exact mirrorURLM_ops env m cc fuel u dir depth st op hop
  · intro env localDir depth rec cc base st link h1 h2 h3 h4 h5
    unfold processLink
    simp [h1, h2, h3, h4, h5]
  · intro env localDir depth rec cc base st link h1 h2 h3 h4 h5
    unfold processLink
    simp [h1, h2, h3, h4, h5]

/-- Witness for C1: the containment statement applied to the `level1`
`MkdirAll` of a concrete crawl, and the two skip statements applied to a
concrete unclean directory. -/
theorem C1_containment_witness :
    (FsOp.mkdirSub (lchars "/data/t/level1") ∈ (initState emptyFs).ops ∨
      containedOp (lchars "/data/t") (FsOp.mkdirSub (lchars "/data/t/level1"))) ∧
    processLink envChain (lchars "/data//y") 0 (fun _ _ _ s => (Except.ok (), s)) true
      (lchars "http://h/") (initState emptyFs) (lchars "sub2/") =
        bumpErr (initState emptyFs) ∧
    processLink envChain (lchars "/data//y") 0 (fun _ _ _ s => (Except.ok (), s)) true
      (lchars "http://h/") (initState emptyFs) (lchars "g.txt") =
        bumpErr (initState emptyFs) :=
  ⟨C1_containment.1 envChain 2 true 10 (lchars "http://h/") (lchars "/data/t") 0
      (initState emptyFs) (FsOp.mkdirSub (lchars "/data/t/level1")) (by decide),
   C1_containment.2.1 envChain (lchars "/data//y") 0 _ true (lchars "http://h/")
      (initState emptyFs) (lchars "sub2/") (by decide) (by decide) (by decide) (by decide)
      (by decide),
   C1_containment.2.2 envChain (lchars "/data//y") 0 _ true (lchars "http://h/")
      (initState emptyFs) (lchars "g.txt") (by decide) (by decide) (by decide) (by decide)
      (by decide)⟩

/-! ## Idempotence of a second run (claim C5)

Projection lemmas for the remaining state fields, the download-call log
(`dls`) bookkeeping, and then: (1) a run all of whose download calls are
probe-safe against its initial filesystem downloads nothing and writes
no file; (2) the download-call log appended by a walk does not depend on
the starting state (when the context is never cancelled); (3) a first
run over a consistent remote with collision-free local paths leaves
every logged call probe-safe against its final filesystem. -/

@[simp] theorem fs_pushOp (op : FsOp) (st : CState) : (pushOp op st).fs = st.fs := rfl
@[simp] theorem fs_logNet (u : List Char) (st : CState) : (logNet u st).fs = st.fs := rfl
@[simp] theorem fs_logDl (u p : List Char) (st : CState) : (logDl u p st).fs = st.fs := rfl
@[simp] theorem fs_bumpErr (st : CState) : (bumpErr st).fs = st.fs := rfl
@[simp] theorem fs_bumpSkipped (st : CState) : (bumpSkipped st).fs = st.fs := rfl
@[simp] theorem fs_bumpDownloaded (sz : Int) (st : CState) :
    (bumpDownloaded sz st).fs = st.fs := rfl

@[simp] theorem dls_pushOp (op : FsOp) (st : CState) : (pushOp op st).dls = st.dls := rfl
@[simp] theorem dls_logNet (u : List Char) (st : CState) : (logNet u st).dls = st.dls := rfl
@[simp] theorem dls_setFile (p : List Char) (mt sz : Int) (st : CState) :
    (setFile p mt sz st).dls = st.dls := rfl
@[simp] theorem dls_bumpErr (st : CState) : (bumpErr st).dls = st.dls := rfl
@[simp] theorem dls_bumpSkipped (st : CState) : (bumpSkipped st).dls = st.dls := rfl
@[simp] theorem dls_bumpDownloaded (sz : Int) (st : CState) :
    (bumpDownloaded sz st).dls = st.dls := rfl
@[simp] theorem dls_logDl (u p : List Char) (st : CState) :
    (logDl u p st).dls = st.dls ++ [(u, p)] := rfl

@[simp] theorem dn_pushOp (op : FsOp) (st : CState) :
    (pushOp op st).stats.filesDownloaded = st.stats.filesDownloaded := rfl
@[simp] theorem dn_logNet (u : List Char) (st : CState) :
    (logNet u st).stats.filesDownloaded = st.stats.filesDownloaded := rfl
@[simp] theorem dn_logDl (u p : List Char) (st : CState) :
    (logDl u p st).stats.filesDownloaded = st.stats.filesDownloaded := rfl
@[simp] theorem dn_setFile (p : List Char) (mt sz : Int) (st : CState) :
    (setFile p mt sz st).stats.filesDownloaded = st.stats.filesDownloaded := rfl
@[simp] theorem dn_bumpErr (st : CState) :
    (bumpErr st).stats.filesDownloaded = st.stats.filesDownloaded := rfl
@[simp] theorem dn_bumpSkipped (st : CState) :
    (bumpSkipped st).stats.filesDownloaded = st.stats.filesDownloaded := rfl

@[simp] theorem fs_setFile_apply (p : List Char) (mt sz : Int) (st : CState) (q : List Char) :
    (setFile p mt sz st).fs q = if q = p then .found mt sz else st.fs q := rfl

@[simp] theorem clientFinish_dls (env : Env) (lp : List Char) (ans : Option (Nat × Option Int))
    (s3 : CState) : (clientFinish env lp ans s3).2.dls = s3.dls := by
  cases ans with
  | none => rfl
  | some v => cases v with | mk blen lm => rfl

theorem clientDoDownload_dls (env : Env) (url lp : List Char) (tag : List Char → FsOp)
    (st : CState) : (clientDoDownload env url lp tag st).2.dls = st.dls := by
  simp [clientDoDownload]

theorem clientProbe_dls (env : Env) (url lp : List Char) (tag : List Char → FsOp)
    (ans : Option RFileInfo) (s1 : CState) :
    (clientProbe env url lp tag ans s1).2.dls = s1.dls := by
  cases ans with
  | none => rfl
  | some info =>
    simp only [clientProbe]
    split
    · rfl
    · rfl
    · exact clientDoDownload_dls env url lp tag s1

theorem clientDownloadM_dls (env : Env) (cc : Bool) (url lp : List Char)
    (tag : List Char → FsOp) (st : CState) :
    (clientDownloadM env cc url lp tag st).2.dls = st.dls := by
  unfold clientDownloadM
  cases cc with
  | true =>
    rw [if_pos rfl, clientProbe_dls]
    rfl
  | false =>
    rw [if_neg (by decide)]
    exact clientDoDownload_dls env url lp tag st

theorem runClientM_dls (env : Env) (cc : Bool) (url lp : List Char)
    (tag : List Char → FsOp) (st : CState) :
    (runClientM env cc url lp tag st).2.dls = st.dls := by
  unfold runClientM
  split <;>
    (rename_i heq
     have := clientDownloadM_dls env cc url lp tag st
     rw [heq] at this
     simpa using this)

theorem mirrorProbe_dls (env : Env) (cc : Bool) (url lp : List Char)
    (tag : List Char → FsOp) (ans : Option RFileInfo) (s1 : CState) :
    (mirrorProbe env cc url lp tag ans s1).2.dls = s1.dls := by
  cases ans with
  | none => exact runClientM_dls env cc url lp tag s1
  | some info =>
    simp only [mirrorProbe]
    split
    · exact runClientM_dls env cc url lp tag s1
    · exact runClientM_dls env cc url lp tag s1
    · rfl

/-- `Manager.downloadFile` logs exactly its own invocation. -/
theorem downloadFileM_dls (env : Env) (cc : Bool) (url lp : List Char)
    (tag : List Char → FsOp) (st : CState) :
    (downloadFileM env cc url lp tag st).2.dls = st.dls ++ [(url, lp)] := by
  unfold downloadFileM
  cases cc with
  | true =>
    rw [if_pos rfl, mirrorProbe_dls]
    rfl
  | false =>
    rw [if_neg (by decide), runClientM_dls]
    rfl

/-- With no deadline configured, the context is never cancelled. -/
theorem ctxCancelled_none (env : Env) (hc : env.cancelAt = none) (c : Nat) :
    ctxCancelled env c = false := by
  unfold ctxCancelled
  rw [hc]

/-- The link loop's body appends a state-independent download-call log
(its branches depend only on the environment, the link and the
directory). -/
theorem processLink_dls_det (env : Env) (localDir : List Char) (depth : Int)
    (rec : List Char → List Char → Int → CState → Except MErr Unit × CState)
    (cc : Bool) (base link : List Char)
    (hrec : ∀ (u' d' : List Char) (dep' : Int), ∃ Δ, ∀ s : CState,
      (rec u' d' dep' s).2.dls = s.dls ++ Δ) :
    ∃ Δ, ∀ st : CState,
      (processLink env localDir depth rec cc base st link).dls = st.dls ++ Δ := by
  by_cases h1 : env.parseOkLink link = true
  case neg => exact ⟨[], fun st => by simp [processLink, h1]⟩
  by_cases h2 : (goContains link (lchars "..") ||
      goContains link (lchars "Parent Directory")) = true
  case pos => exact ⟨[], fun st => by simp [processLink, h1, h2]⟩
  by_cases h3 : goHasSuffix link (lchars "/") = true
  · by_cases h4 : isValidFilename (goTrimSuffix link (lchars "/")) = true
    case neg => exact ⟨[], fun st => by simp [processLink, h1, h2, h3, h4]⟩
    by_cases h5 : goHasPrefix (goJoin localDir (goTrimSuffix link (lchars "/"))) localDir = true
    case neg => exact ⟨[], fun st => by simp [processLink, h1, h2, h3, h4, h5]⟩
    obtain ⟨Δ, hΔ⟩ := hrec (env.resolve base link)
      (goJoin localDir (goTrimSuffix link (lchars "/"))) (depth + 1)
    refine ⟨Δ, fun st => ?_⟩
    simp only [processLink, h1, h2, h3, h4, h5, if_true, if_false, Bool.false_eq_true,
      ite_true, ite_false]
    rw [hΔ]
    simp
  · by_cases h4 : isValidFilename (goBase link) = true
    case neg => exact ⟨[], fun st => by simp [processLink, h1, h2, h3, h4]⟩
    by_cases h5 : goHasPrefix (goJoin localDir (goBase link)) localDir = true
    case neg => exact ⟨[], fun st => by simp [processLink, h1, h2, h3, h4, h5]⟩
    refine ⟨[(env.resolve base link, goJoin localDir (goBase link))], fun st => ?_⟩
    simp only [processLink, h1, h2, h3, h4, h5, if_true, if_false, Bool.false_eq_true,
      ite_true, ite_false]
    exact downloadFileM_dls env cc (env.resolve base link)
      (goJoin localDir (goBase link)) FsOp.createLink st

/-- Folding steps with state-independent call logs appends a
state-independent call log. -/
theorem foldl_dls_det (f : CState → List Char → CState)
    (hf : ∀ l, ∃ Δ, ∀ s : CState, (f s l).dls = s.dls ++ Δ) :
    ∀ links : List (List Char), ∃ Δ, ∀ st : CState,
      (links.foldl f st).dls = st.dls ++ Δ := by
  intro links
  induction links with
  | nil => exact ⟨[], fun st => by simp⟩
  | cons l ls ih =>
    obtain ⟨Δ1, h1⟩ := hf l
    obtain ⟨Δ2, h2⟩ := ih
    exact ⟨Δ1 ++ Δ2, fun st => by
      show (ls.foldl f (f st l)).dls = st.dls ++ (Δ1 ++ Δ2)
      rw [h2, h1, List.append_assoc]⟩

/-- Processing a fetched answer appends a state-independent call log. -/
theorem mirrorFetched_dls_det (env : Env) (localDir : List Char) (depth : Int)
    (rec : List Char → List Char → Int → CState → Except MErr Unit × CState)
    (cc : Bool) (u : List Char) (ans : Option (List Char × List Char))
    (hrec : ∀ (u' d' : List Char) (dep' : Int), ∃ Δ, ∀ s : CState,
      (rec u' d' dep' s).2.dls = s.dls ++ Δ) :
    ∃ Δ, ∀ st1 : CState,
      (mirrorFetched env localDir depth rec cc u ans st1).2.dls = st1.dls ++ Δ := by
  cases ans with
  | none => exact ⟨[], fun st1 => by simp [mirrorFetched]⟩
  | some v =>
    cases v with
    | mk ctype body =>
      by_cases hhtml : goContains ctype (lchars "text/html") = true
      · by_cases hempty : parseListing body = []
        · refine ⟨[(u, goJoin localDir (directFilenameHTML (env.urlPath u)))],
            fun st1 => ?_⟩
          simp only [mirrorFetched, hhtml, hempty, if_true, ite_true]
          exact downloadFileM_dls env cc u
            (goJoin localDir (directFilenameHTML (env.urlPath u))) FsOp.createDirect st1
        · obtain ⟨Δ, hΔ⟩ := foldl_dls_det _
            (fun l => processLink_dls_det env localDir depth rec cc u l hrec)
            (parseListing body)
          refine ⟨Δ, fun st1 => ?_⟩
          simp only [mirrorFetched, hhtml, hempty, if_true, ite_true, if_false, ite_false]
          exact hΔ st1
      · refine ⟨[(u, goJoin localDir (directFilenameNonHTML (env.urlPath u)))],
          fun st1 => ?_⟩
        simp only [mirrorFetched, hhtml, Bool.false_eq_true, if_false, ite_false]
        exact downloadFileM_dls env cc u
          (goJoin localDir (directFilenameNonHTML (env.urlPath u))) FsOp.createDirect st1

/-- When the context is never cancelled, the walk's download-call log
does not depend on the starting state: two runs over the same
environment make exactly the same download calls. -/
theorem mirrorURLM_dls_det (env : Env) (m : Int) (cc : Bool) (hc : env.cancelAt = none) :
    ∀ (fuel : Nat) (u dir : List Char) (depth : Int), ∃ Δ, ∀ st : CState,
      (mirrorURLM env m cc fuel u dir depth st).2.dls = st.dls ++ Δ := by
  intro fuel
  induction fuel with
  | zero => exact fun u dir depth => ⟨[], fun st => by simp [mirrorURLM]⟩
  | succ n ih =>
    intro u dir depth
    by_cases hd : depthReached m depth = true
    · exact ⟨[], fun st => by simp [mirrorURLM, hd]⟩
    · by_cases hp : env.parseOkURL u = true
      · obtain ⟨Δ, hΔ⟩ := mirrorFetched_dls_det env dir depth (mirrorURLM env m cc n) cc u
          (env.fetchDir u) (fun u' d' dep' => ih u' d' dep')
        refine ⟨Δ, fun st => ?_⟩
        have hfetch : netFetchDir env st u = env.fetchDir u := by
          unfold netFetchDir
          rw [ctxCancelled_none env hc]
          rfl
        simp only [mirrorURLM, Bool.not_eq_true] at *
        rw [if_neg (by simp [hd]), if_neg (by simp [ctxCancelled_none env hc]),
          if_pos hp, hfetch]
        have := hΔ (logNet u st)
        simpa using this
      · exact ⟨[], fun st => by
          simp only [mirrorURLM]
          rw [if_neg (by simp [hd]), if_neg (by simp [ctxCancelled_none env hc]),
            if_neg (by simp [hp])]
          simp⟩

/-- With no deadline, a probe answers straight from the environment. -/
theorem netHead_no_cancel (env : Env) (hc : env.cancelAt = none) (s : CState)
    (url : List Char) : netHead env s url = env.head url := by
  simp [netHead, ctxCancelled_none env hc]

/-- With no deadline, a content `GET` answers straight from the
environment. -/
theorem netGet_no_cancel (env : Env) (hc : env.cancelAt = none) (s : CState)
    (url : List Char) : netGet env s url = env.get url := by
  simp [netGet, ctxCancelled_none env hc]

/-- `downloadFile` when the probe fails: the client's own probe fails
too, so the call only counts an error. -/
theorem downloadFileM_head_none (env : Env) (url lp : List Char) (tag : List Char → FsOp)
    (st : CState) (hc : env.cancelAt = none) (hh : env.head url = none) :
    downloadFileM env true url lp tag st =
      (.error (), bumpErr (logNet url (logNet url (logDl url lp st)))) := by
  unfold downloadFileM mirrorProbe runClientM clientDownloadM clientProbe
  simp [netHead_no_cancel env hc, hh]

/-- `downloadFile` when the probe reports the file up to date: the call
is counted skipped and nothing else happens. -/
theorem downloadFileM_skip (env : Env) (url lp : List Char) (tag : List Char → FsOp)
    (st : CState) (hc : env.cancelAt = none) (info : RFileInfo)
    (hh : env.head url = some info)
    (hnu : needsUpdateM (st.fs lp) info = .ok false) :
    downloadFileM env true url lp tag st =
      (.ok (), bumpSkipped (logNet url (logDl url lp st))) := by
  unfold downloadFileM mirrorProbe
  simp [netHead_no_cancel env hc, hh, fs_logNet, fs_logDl, hnu]

/-- `downloadFile` when the local stat fails: the crawler tries to
download anyway, but the client's own probe hits the same stat failure
and returns an error before writing anything. -/
theorem downloadFileM_staterr (env : Env) (url lp : List Char) (tag : List Char → FsOp)
    (st : CState) (hc : env.cancelAt = none) (info : RFileInfo)
    (hh : env.head url = some info)
    (hnu : needsUpdateM (st.fs lp) info = .error ()) :
    downloadFileM env true url lp tag st =
      (.error (), bumpErr (logNet url (logNet url (logDl url lp st)))) := by
  unfold downloadFileM mirrorProbe runClientM clientDownloadM clientProbe
  simp [netHead_no_cancel env hc, hh, fs_logNet, fs_logDl, hnu]

/-- `downloadFile` when an update is needed and the `GET` succeeds. -/
theorem downloadFileM_download_get_some (env : Env) (url lp : List Char)
    (tag : List Char → FsOp) (st : CState) (hc : env.cancelAt = none) (info : RFileInfo)
    (n : Nat) (lm : Option Int) (hh : env.head url = some info)
    (hnu : needsUpdateM (st.fs lp) info = .ok true) (hg : env.get url = some (n, lm)) :
    downloadFileM env true url lp tag st =
      (.ok (), bumpDownloaded (Int.ofNat n)
        (setFile lp (lm.getD env.nowTime) (Int.ofNat n)
          (logNet url (setFile lp env.nowTime 0
            (pushOp (tag lp) (pushOp (FsOp.mkdirParent (goDir lp))
              (logNet url (logNet url (logDl url lp st))))))))) := by
  unfold downloadFileM mirrorProbe runClientM clientDownloadM clientProbe clientDoDownload
    clientFinish
  simp [netHead_no_cancel env hc, netGet_no_cancel env hc, hh, hg, fs_logNet, fs_logDl, hnu]

/-- `downloadFile` when an update is needed but the `GET` fails: the
destination has already been truncated, and the call counts an error. -/
theorem downloadFileM_download_get_none (env : Env) (url lp : List Char)
    (tag : List Char → FsOp) (st : CState) (hc : env.cancelAt = none) (info : RFileInfo)
    (hh : env.head url = some info)
    (hnu : needsUpdateM (st.fs lp) info = .ok true) (hg : env.get url = none) :
    downloadFileM env true url lp tag st =
      (.error (), bumpErr (logNet url (setFile lp env.nowTime 0
        (pushOp (tag lp) (pushOp (FsOp.mkdirParent (goDir lp))
          (logNet url (logNet url (logDl url lp st)))))))) := by
  unfold downloadFileM mirrorProbe runClientM clientDownloadM clientProbe clientDoDownload
    clientFinish
  simp [netHead_no_cancel env hc, netGet_no_cancel env hc, hh, hg, fs_logNet, fs_logDl, hnu]

/-- A probe-safe download call changes nothing but the logs: the
filesystem, the downloaded counter and the write log are untouched. -/
theorem downloadFileM_safe_noop (env : Env) (url lp : List Char) (tag : List Char → FsOp)
    (st : CState) (hc : env.cancelAt = none)
    (hsafe : probeSafe env st.fs url lp) :
    (downloadFileM env true url lp tag st).2.fs = st.fs ∧
    (downloadFileM env true url lp tag st).2.stats.filesDownloaded =
      st.stats.filesDownloaded ∧
    (downloadFileM env true url lp tag st).2.ops = st.ops := by
  unfold probeSafe at hsafe
  cases hh : env.head url with
  | none => rw [downloadFileM_head_none env url lp tag st hc hh]; exact ⟨rfl, rfl, rfl⟩
  | some info =>
    rw [hh] at hsafe
    cases hnu : needsUpdateM (st.fs lp) info with
    | error e =>
      cases e
      rw [downloadFileM_staterr env url lp tag st hc info hh hnu]
      exact ⟨rfl, rfl, rfl⟩
    | ok b =>
      cases b with
      | false =>
        rw [downloadFileM_skip env url lp tag st hc info hh hnu]
        exact ⟨rfl, rfl, rfl⟩
      | true => exact absurd hnu hsafe

/-- A link-loop iteration all of whose download calls are probe-safe
leaves the filesystem, the downloaded counter and the file writes
untouched (only subdirectory `MkdirAll`s may be added). -/
theorem processLink_noop (env : Env) (localDir : List Char) (depth : Int)
    (rec : List Char → List Char → Int → CState → Except MErr Unit × CState)
    (base : List Char) (hc : env.cancelAt = none)
    (hrec : ∀ (u' d' : List Char) (dep' : Int) (s : CState),
      (∀ v p, (v, p) ∈ (rec u' d' dep' s).2.dls → probeSafe env s.fs v p) →
      (rec u' d' dep' s).2.fs = s.fs ∧
      (rec u' d' dep' s).2.stats.filesDownloaded = s.stats.filesDownloaded ∧
      (∀ op ∈ (rec u' d' dep' s).2.ops, op ∈ s.ops ∨ isMkdirSub op)) :
    ∀ (st : CState) (link : List Char),
      (∀ v p, (v, p) ∈ (processLink env localDir depth rec true base st link).dls →
        probeSafe env st.fs v p) →
      (processLink env localDir depth rec true base st link).fs = st.fs ∧
      (processLink env localDir depth rec true base st link).stats.filesDownloaded =
        st.stats.filesDownloaded ∧
      (∀ op ∈ (processLink env localDir depth rec true base st link).ops,
        op ∈ st.ops ∨ isMkdirSub op) := by
  intro st link H
  by_cases h1 : env.parseOkLink link = true
  case neg =>
    have hred : processLink env localDir depth rec true base st link = st := by
      simp only [processLink, h1, Bool.false_eq_true, if_false, ite_false]
    rw [hred]
    exact ⟨rfl, rfl, fun op hop => Or.inl hop⟩
  by_cases h2 : (goContains link (lchars "..") ||
      goContains link (lchars "Parent Directory")) = true
  case pos =>
    have hred : processLink env localDir depth rec true base st link = st := by
      simp only [processLink, h1, h2, if_true, ite_true]
    rw [hred]
    exact ⟨rfl, rfl, fun op hop => Or.inl hop⟩
  by_cases h3 : goHasSuffix link (lchars "/") = true
  · by_cases h4 : isValidFilename (goTrimSuffix link (lchars "/")) = true
    case neg =>
      have hred : processLink env localDir depth rec true base st link = st := by
        simp only [processLink, h1, h2, h3, h4, if_true, ite_true, Bool.false_eq_true,
          if_false, ite_false]
      rw [hred]
      exact ⟨rfl, rfl, fun op hop => Or.inl hop⟩
    by_cases h5 : goHasPrefix (goJoin localDir (goTrimSuffix link (lchars "/"))) localDir = true
    case neg =>
      have hred : processLink env localDir depth rec true base st link = bumpErr st := by
        simp only [processLink, h1, h2, h3, h4, h5, if_true, ite_true, Bool.false_eq_true,
          if_false, ite_false]
      rw [hred]
      exact ⟨rfl, rfl, fun op hop => Or.inl hop⟩
    have hred : processLink env localDir depth rec true base st link =
        (rec (env.resolve base link) (goJoin localDir (goTrimSuffix link (lchars "/")))
          (depth + 1)
          (pushOp (FsOp.mkdirSub (goJoin localDir (goTrimSuffix link (lchars "/")))) st)).2 := by
      simp only [processLink, h1, h2, h3, h4, h5, if_true, ite_true, Bool.false_eq_true,
        if_false, ite_false]
    rw [hred] at H ⊢
    obtain ⟨hfs, hdn, hops⟩ := hrec (env.resolve base link)
      (goJoin localDir (goTrimSuffix link (lchars "/"))) (depth + 1)
      (pushOp (FsOp.mkdirSub (goJoin localDir (goTrimSuffix link (lchars "/")))) st)
      (fun v p hmem => H v p hmem)
    refine ⟨hfs, hdn, fun op hop => ?_⟩
    rcases hops op hop with h | h
    · simp only [ops_pushOp, List.mem_append, List.mem_singleton] at h
      rcases h with h | h
      · exact Or.inl h
      · subst h; exact Or.inr trivial
    · exact Or.inr h
  · by_cases h4 : isValidFilename (goBase link) = true
    case neg =>
      have hred : processLink env localDir depth rec true base st link = st := by
        simp [processLink, h1, h2, h3, h4]
      rw [hred]
      exact ⟨rfl, rfl, fun op hop => Or.inl hop⟩
    by_cases h5 : goHasPrefix (goJoin localDir (goBase link)) localDir = true
    case neg =>
      have hred : processLink env localDir depth rec true base st link = bumpErr st := by
        simp only [processLink, h1, h2, h3, h4, h5, if_true, ite_true, Bool.false_eq_true,
          if_false, ite_false]
      rw [hred]
      exact ⟨rfl, rfl, fun op hop => Or.inl hop⟩
    have hred : processLink env localDir depth rec true base st link =
        (downloadFileM env true (env.resolve base link) (goJoin localDir (goBase link))
          FsOp.createLink st).2 := by
      simp only [processLink, h1, h2, h3, h4, h5, if_true, ite_true, Bool.false_eq_true,
        if_false, ite_false]
    rw [hred] at H ⊢
    have hsafe : probeSafe env st.fs (env.resolve base link) (goJoin localDir (goBase link)) := by
      apply H
      rw [downloadFileM_dls]
      exact List.mem_append_right _ (List.mem_singleton.2 rfl)
    obtain ⟨hfs, hdn, hops⟩ := downloadFileM_safe_noop env (env.resolve base link)
      (goJoin localDir (goBase link)) FsOp.createLink st hc hsafe
    exact ⟨hfs, hdn, fun op hop => Or.inl (hops ▸ hop)⟩

/-- Folding probe-safe iterations over a link list is a no-op on the
filesystem, the downloaded counter and the file writes. -/
theorem foldl_noop (env : Env) (f : CState → List Char → CState)
    (hdet : ∀ l, ∃ Δ, ∀ s : CState, (f s l).dls = s.dls ++ Δ)
    (hf : ∀ (s : CState) (l : List Char),
      (∀ v p, (v, p) ∈ (f s l).dls → probeSafe env s.fs v p) →
      (f s l).fs = s.fs ∧ (f s l).stats.filesDownloaded = s.stats.filesDownloaded ∧
      (∀ op ∈ (f s l).ops, op ∈ s.ops ∨ isMkdirSub op)) :
    ∀ (links : List (List Char)) (st : CState),
      (∀ v p, (v, p) ∈ (links.foldl f st).dls → probeSafe env st.fs v p) →
      (links.foldl f st).fs = st.fs ∧
      (links.foldl f st).stats.filesDownloaded = st.stats.filesDownloaded ∧
      (∀ op ∈ (links.foldl f st).ops, op ∈ st.ops ∨ isMkdirSub op) := by
  intro links
  induction links with
  | nil => exact fun st H => ⟨rfl, rfl, fun op hop => Or.inl hop⟩
  | cons l ls ih =>
    intro st H
    obtain ⟨Δrest, hrest⟩ := foldl_dls_det f hdet ls
    have Hf : ∀ v p, (v, p) ∈ (f st l).dls → probeSafe env st.fs v p := by
      intro v p hmem
      apply H
      rw [List.foldl_cons, hrest (f st l)]
      exact List.mem_append_left _ hmem
    obtain ⟨hfs, hdn, hops⟩ := hf st l Hf
    have Hrest : ∀ v p, (v, p) ∈ (ls.foldl f (f st l)).dls →
        probeSafe env (f st l).fs v p := by
      intro v p hmem
      rw [hfs]
      apply H
      rw [List.foldl_cons]
      exact hmem
    obtain ⟨hfs2, hdn2, hops2⟩ := ih (f st l) Hrest
    refine ⟨?_, ?_, ?_⟩
    · rw [List.foldl_cons, hfs2, hfs]
    · rw [List.foldl_cons, hdn2, hdn]
    · intro op hop
      rw [List.foldl_cons] at hop
      rcases hops2 op hop with h | h
      · exact hops op h
      · exact Or.inr h

/-- Processing a fetched answer with only probe-safe download calls is a
no-op on the filesystem, the downloaded counter and the file writes. -/
theorem mirrorFetched_noop (env : Env) (localDir : List Char) (depth : Int)
    (rec : List Char → List Char → Int → CState → Except MErr Unit × CState)
    (u : List Char) (ans : Option (List Char × List Char)) (hc : env.cancelAt = none)
    (hrecdet : ∀ (u' d' : List Char) (dep' : Int), ∃ Δ, ∀ s : CState,
      (rec u' d' dep' s).2.dls = s.dls ++ Δ)
    (hrec : ∀ (u' d' : List Char) (dep' : Int) (s : CState),
      (∀ v p, (v, p) ∈ (rec u' d' dep' s).2.dls → probeSafe env s.fs v p) →
      (rec u' d' dep' s).2.fs = s.fs ∧
      (rec u' d' dep' s).2.stats.filesDownloaded = s.stats.filesDownloaded ∧
      (∀ op ∈ (rec u' d' dep' s).2.ops, op ∈ s.ops ∨ isMkdirSub op)) :
    ∀ (st1 : CState),
      (∀ v p, (v, p) ∈ (mirrorFetched env localDir depth rec true u ans st1).2.dls →
        probeSafe env st1.fs v p) →
      (mirrorFetched env localDir depth rec true u ans st1).2.fs = st1.fs ∧
      (mirrorFetched env localDir depth rec true u ans st1).2.stats.filesDownloaded =
        st1.stats.filesDownloaded ∧
      (∀ op ∈ (mirrorFetched env localDir depth rec true u ans st1).2.ops,
        op ∈ st1.ops ∨ isMkdirSub op) := by
  intro st1 H
  cases ans with
  | none =>
    have hred : mirrorFetched env localDir depth rec true u none st1 =
        (.error .fetchErr, bumpErr st1) := rfl
    rw [hred]
    exact ⟨rfl, rfl, fun op hop => Or.inl hop⟩
  | some v =>
    cases v with
    | mk ctype body =>
      by_cases hhtml : goContains ctype (lchars "text/html") = true
      · by_cases hempty : parseListing body = []
        · have hred : mirrorFetched env localDir depth rec true u (some (ctype, body)) st1 =
              (.ok (), (downloadFileM env true u
                (goJoin localDir (directFilenameHTML (env.urlPath u)))
                FsOp.createDirect st1).2) := by
            simp only [mirrorFetched, hhtml, hempty, if_true, ite_true]
          rw [hred] at H ⊢
          have hsafe : probeSafe env st1.fs u
              (goJoin localDir (directFilenameHTML (env.urlPath u))) := by
            apply H
            rw [downloadFileM_dls]
            exact List.mem_append_right _ (List.mem_singleton.2 rfl)
          obtain ⟨hfs, hdn, hops⟩ := downloadFileM_safe_noop env u
            (goJoin localDir (directFilenameHTML (env.urlPath u))) FsOp.createDirect st1
            hc hsafe
          exact ⟨hfs, hdn, fun op hop => Or.inl (hops ▸ hop)⟩
        · have hred : mirrorFetched env localDir depth rec true u (some (ctype, body)) st1 =
              (.ok (), (parseListing body).foldl
                (processLink env localDir depth rec true u) st1) := by
            simp only [mirrorFetched, hhtml, hempty, if_true, ite_true, if_false, ite_false]
          rw [hred] at H ⊢
          exact foldl_noop env (processLink env localDir depth rec true u)
            (fun l => processLink_dls_det env localDir depth rec true u l hrecdet)
            (fun s l hs => processLink_noop env localDir depth rec u hc hrec s l hs)
            (parseListing body) st1 H
      · have hred : mirrorFetched env localDir depth rec true u (some (ctype, body)) st1 =
            (.ok (), (downloadFileM env true u
              (goJoin localDir (directFilenameNonHTML (env.urlPath u)))
              FsOp.createDirect st1).2) := by
          simp only [mirrorFetched, hhtml, Bool.false_eq_true, if_false, ite_false]
        rw [hred] at H ⊢
        have hsafe : probeSafe env st1.fs u
            (goJoin localDir (directFilenameNonHTML (env.urlPath u))) := by
          apply H
          rw [downloadFileM_dls]
          exact List.mem_append_right _ (List.mem_singleton.2 rfl)
        obtain ⟨hfs, hdn, hops⟩ := downloadFileM_safe_noop env u
          (goJoin localDir (directFilenameNonHTML (env.urlPath u))) FsOp.createDirect st1
          hc hsafe
        exact ⟨hfs, hdn, fun op hop => Or.inl (hops ▸ hop)⟩

/-- A walk (with change detection on and no cancellation) all of whose
download calls are probe-safe against its starting filesystem leaves the
filesystem and the downloaded counter untouched and adds at most
subdirectory `MkdirAll`s to the write log. -/
theorem mirrorURLM_noop (env : Env) (m : Int) (hc : env.cancelAt = none) :
    ∀ (fuel : Nat) (u dir : List Char) (depth : Int) (st : CState),
      (∀ v p, (v, p) ∈ (mirrorURLM env m true fuel u dir depth st).2.dls →
        probeSafe env st.fs v p) →
      (mirrorURLM env m true fuel u dir depth st).2.fs = st.fs ∧
      (mirrorURLM env m true fuel u dir depth st).2.stats.filesDownloaded =
        st.stats.filesDownloaded ∧
      (∀ op ∈ (mirrorURLM env m true fuel u dir depth st).2.ops,
        op ∈ st.ops ∨ isMkdirSub op) := by
  intro fuel
  induction fuel with
  | zero => exact fun u dir depth st H => ⟨rfl, rfl, fun op hop => Or.inl hop⟩
  | succ n ih =>
    intro u dir depth st H
    by_cases hd : depthReached m depth = true
    · have hred : mirrorURLM env m true (n + 1) u dir depth st = (.ok (), st) := by
        simp only [mirrorURLM, hd, if_true, ite_true]
      rw [hred]
      exact ⟨rfl, rfl, fun op hop => Or.inl hop⟩
    · by_cases hp : env.parseOkURL u = true
      · have hred : mirrorURLM env m true (n + 1) u dir depth st =
            mirrorFetched env dir depth (mirrorURLM env m true n) true u
              (env.fetchDir u) (logNet u st) := by
          simp only [mirrorURLM]
          rw [if_neg (by simp [hd]), if_neg (by simp [ctxCancelled_none env hc]),
            if_pos hp]
          have hfetch : netFetchDir env st u = env.fetchDir u := by
            unfold netFetchDir
            rw [ctxCancelled_none env hc]
            rfl
          rw [hfetch]
        rw [hred] at H ⊢
        have := mirrorFetched_noop env dir depth (mirrorURLM env m true n) u
          (env.fetchDir u) hc
          (fun u' d' dep' => mirrorURLM_dls_det env m true hc n u' d' dep')
          (fun u' d' dep' s hs => ih u' d' dep' s hs)
          (logNet u st) (fun v p hmem => H v p hmem)
        exact this
      · have hred : mirrorURLM env m true (n + 1) u dir depth st =
            (.error .parseErr, bumpErr st) := by
          simp only [mirrorURLM]
          rw [if_neg (by simp [hd]), if_neg (by simp [ctxCancelled_none env hc]),
            if_neg (by simp [hp])]
        rw [hred]
        exact ⟨rfl, rfl, fun op hop => Or.inl hop⟩

theorem PairInj.append_left {D1 D2 : List (List Char × List Char)}
    (h : PairInj (D1 ++ D2)) : PairInj D1 :=
  fun x hx y hy => h x (List.mem_append_left _ hx) y (List.mem_append_left _ hy)

theorem probeSafe_congr {env : Env} {fs fs' : List Char → StatRes} (v p : List Char)
    (h : fs p = fs' p) (hs : probeSafe env fs v p) : probeSafe env fs' v p := by
  unfold probeSafe at hs ⊢
  cases hv : env.head v with
  | none => trivial
  | some info =>
    rw [hv] at hs
    show needsUpdateM (fs' p) info ≠ Except.ok true
    rw [← h]
    exact hs

/-- A file just written with consistent metadata is judged up to date. -/
theorem needsUpdate_after_write (info : RFileInfo) (n : Nat) (now : Int)
    (hsz : info.size = Int.ofNat n) :
    needsUpdateM (.found (info.lastModified.getD now) (Int.ofNat n)) info = .ok false := by
  unfold needsUpdateM remoteNewer
  cases hlm : info.lastModified with
  | some t => simp [hsz]
  | none => simp [hsz]

/-- Filesystem view after a successful download: the local path holds
the body's size and the header's timestamp, nothing else moves. -/
theorem downloadFileM_download_fs (env : Env) (url lp : List Char) (tag : List Char → FsOp)
    (st : CState) (hc : env.cancelAt = none) (info : RFileInfo) (n : Nat) (lm : Option Int)
    (hh : env.head url = some info) (hnu : needsUpdateM (st.fs lp) info = .ok true)
    (hg : env.get url = some (n, lm)) :
    ∀ q, (downloadFileM env true url lp tag st).2.fs q =
      if q = lp then .found (lm.getD env.nowTime) (Int.ofNat n)
      else st.fs q := by
  intro q
  rw [downloadFileM_download_get_some env url lp tag st hc info n lm hh hnu hg]
  by_cases hq : q = lp <;> simp [fs_setFile_apply, hq]

/-- One download call preserves the safety invariant, provided the
remote is consistent and no other URL shares this call's local path. -/
theorem downloadFileM_post (env : Env) (url lp : List Char) (tag : List Char → FsOp)
    (st : CState) (hc : env.cancelAt = none) (hcons : Consistent env)
    (hI : SafeInv env st)
    (hinj : ∀ v, (v, lp) ∈ st.dls ++ [(url, lp)] → v = url) :
    SafeInv env (downloadFileM env true url lp tag st).2 := by
  intro v p hmem
  rw [downloadFileM_dls] at hmem
  cases hh : env.head url with
  | none =>
    rw [downloadFileM_head_none env url lp tag st hc hh]
    show probeSafe env st.fs v p
    rcases List.mem_append.1 hmem with h | h
    · exact hI v p h
    · have hv : v = url := congrArg Prod.fst (List.mem_singleton.1 h)
      unfold probeSafe
      rw [hv, hh]
      trivial
  | some info =>
    cases hnu : needsUpdateM (st.fs lp) info with
    | error e =>
      cases e
      rw [downloadFileM_staterr env url lp tag st hc info hh hnu]
      show probeSafe env st.fs v p
      rcases List.mem_append.1 hmem with h | h
      · exact hI v p h
      · have hv : v = url := congrArg Prod.fst (List.mem_singleton.1 h)
        have hp2 : p = lp := congrArg Prod.snd (List.mem_singleton.1 h)
        unfold probeSafe
        rw [hv, hh]
        intro hcontra
        rw [hp2, hnu] at hcontra
        simp at hcontra
    | ok b =>
      cases b with
      | false =>
        rw [downloadFileM_skip env url lp tag st hc info hh hnu]
        show probeSafe env st.fs v p
        rcases List.mem_append.1 hmem with h | h
        · exact hI v p h
        · have hv : v = url := congrArg Prod.fst (List.mem_singleton.1 h)
          have hp2 : p = lp := congrArg Prod.snd (List.mem_singleton.1 h)
          unfold probeSafe
          rw [hv, hh]
          intro hcontra
          rw [hp2, hnu] at hcontra
          simp at hcontra
      | true =>
        obtain ⟨n, hg, hsz⟩ := hcons url info hh
        have hfsq := downloadFileM_download_fs env url lp tag st hc info n
          info.lastModified hh hnu hg
        by_cases hp : p = lp
        · have hv : v = url := hinj v (hp ▸ hmem)
          unfold probeSafe
          rw [hv, hh]
          intro hcontra
          rw [hp, hfsq lp, if_pos rfl, needsUpdate_after_write info n env.nowTime hsz]
            at hcontra
          simp at hcontra
        · have hfsp : st.fs p = (downloadFileM env true url lp tag st).2.fs p := by
            rw [hfsq p, if_neg hp]
          rcases List.mem_append.1 hmem with h | h
          · exact probeSafe_congr v p hfsp (hI v p h)
          · have hp2 : p = lp := congrArg Prod.snd (List.mem_singleton.1 h)
            exact absurd hp2 hp

/-- The collision-freedom needed by one download call, extracted from
collision-freedom of the call log it produces. -/
theorem hinj_of_pairInj (env : Env) (cc : Bool) (url lp : List Char)
    (tag : List Char → FsOp) (st : CState)
    (hPI : PairInj ((downloadFileM env cc url lp tag st).2.dls)) :
    ∀ v, (v, lp) ∈ st.dls ++ [(url, lp)] → v = url := by
  intro v hv
  have h1 : ((v, lp) : List Char × List Char) ∈ (downloadFileM env cc url lp tag st).2.dls := by
    rw [downloadFileM_dls]; exact hv
  have h2 : ((url, lp) : List Char × List Char) ∈
      (downloadFileM env cc url lp tag st).2.dls := by
    rw [downloadFileM_dls]
    exact List.mem_append_right _ (List.mem_singleton.2 rfl)
  exact hPI (v, lp) h1 (url, lp) h2 rfl

/-- A link-loop iteration preserves the safety invariant. -/
theorem processLink_post (env : Env) (localDir : List Char) (depth : Int)
    (rec : List Char → List Char → Int → CState → Except MErr Unit × CState)
    (base : List Char) (hc : env.cancelAt = none) (hcons : Consistent env)
    (hrec : ∀ (u' d' : List Char) (dep' : Int) (s : CState),
      SafeInv env s → PairInj (rec u' d' dep' s).2.dls → SafeInv env (rec u' d' dep' s).2) :
    ∀ (st : CState) (link : List Char), SafeInv env st →
      PairInj (processLink env localDir depth rec true base st link).dls →
      SafeInv env (processLink env localDir depth rec true base st link) := by
  intro st link hI hPI
  by_cases h1 : env.parseOkLink link = true
  case neg =>
    have hred : processLink env localDir depth rec true base st link = st := by
      simp only [processLink, h1, Bool.false_eq_true, if_false, ite_false]
    rw [hred]
    exact hI
  by_cases h2 : (goContains link (lchars "..") ||
      goContains link (lchars "Parent Directory")) = true
  case pos =>
    have hred : processLink env localDir depth rec true base st link = st := by
      simp only [processLink, h1, h2, if_true, ite_true]
    rw [hred]
    exact hI
  by_cases h3 : goHasSuffix link (lchars "/") = true
  · by_cases h4 : isValidFilename (goTrimSuffix link (lchars "/")) = true
    case neg =>
      have hred : processLink env localDir depth rec true base st link = st := by
        simp only [processLink, h1, h2, h3, h4, if_true, ite_true, Bool.false_eq_true,
          if_false, ite_false]
      rw [hred]
      exact hI
    by_cases h5 : goHasPrefix (goJoin localDir (goTrimSuffix link (lchars "/"))) localDir = true
    case neg =>
      have hred : processLink env localDir depth rec true base st link = bumpErr st := by
        simp only [processLink, h1, h2, h3, h4, h5, if_true, ite_true, Bool.false_eq_true,
          if_false, ite_false]
      rw [hred]
      exact hI
    have hred : processLink env localDir depth rec true base st link =
        (rec (env.resolve base link) (goJoin localDir (goTrimSuffix link (lchars "/")))
          (depth + 1)
          (pushOp (FsOp.mkdirSub (goJoin localDir (goTrimSuffix link (lchars "/")))) st)).2 := by
      simp only [processLink, h1, h2, h3, h4, h5, if_true, ite_true, Bool.false_eq_true,
        if_false, ite_false]
    rw [hred] at hPI ⊢
    exact hrec _ _ _ _ hI hPI
  · by_cases h4 : isValidFilename (goBase link) = true
    case neg =>
      have hred : processLink env localDir depth rec true base st link = st := by
        simp [processLink, h1, h2, h3, h4]
      rw [hred]
      exact hI
    by_cases h5 : goHasPrefix (goJoin localDir (goBase link)) localDir = true
    case neg =>
      have hred : processLink env localDir depth rec true base st link = bumpErr st := by
        simp only [processLink, h1, h2, h3, h4, h5, if_true, ite_true, Bool.false_eq_true,
          if_false, ite_false]
      rw [hred]
      exact hI
    have hred : processLink env localDir depth rec true base st link =
        (downloadFileM env true (env.resolve base link) (goJoin localDir (goBase link))
          FsOp.createLink st).2 := by
      simp only [processLink, h1, h2, h3, h4, h5, if_true, ite_true, Bool.false_eq_true,
        if_false, ite_false]
    rw [hred] at hPI ⊢
    exact downloadFileM_post env (env.resolve base link) (goJoin localDir (goBase link))
      FsOp.createLink st hc hcons hI
      (hinj_of_pairInj env true (env.resolve base link) (goJoin localDir (goBase link))
        FsOp.createLink st hPI)

/-- Folding safety-preserving iterations preserves the invariant. -/
theorem foldl_post (env : Env) (f : CState → List Char → CState)
    (hdet : ∀ l, ∃ Δ, ∀ s : CState, (f s l).dls = s.dls ++ Δ)
    (hf : ∀ (s : CState) (l : List Char),
      SafeInv env s → PairInj (f s l).dls → SafeInv env (f s l)) :
    ∀ (links : List (List Char)) (st : CState), SafeInv env st →
      PairInj ((links.foldl f st).dls) → SafeInv env (links.foldl f st) := by
  intro links
  induction links with
  | nil => exact fun st hI _ => hI
  | cons l ls ih =>
    intro st hI hPI
    rw [List.foldl_cons] at hPI ⊢
    obtain ⟨Δrest, hrest⟩ := foldl_dls_det f hdet ls
    have hPI1 : PairInj (f st l).dls := by
      have heq : (ls.foldl f (f st l)).dls = (f st l).dls ++ Δrest := hrest (f st l)
      rw [heq] at hPI
      exact hPI.append_left
    exact ih (f st l) (hf st l hI hPI1) hPI

/-- Processing a fetched answer preserves the safety invariant. -/
theorem mirrorFetched_post (env : Env) (localDir : List Char) (depth : Int)
    (rec : List Char → List Char → Int → CState → Except MErr Unit × CState)
    (u : List Char) (ans : Option (List Char × List Char)) (hc : env.cancelAt = none)
    (hcons : Consistent env)
    (hrecdet : ∀ (u' d' : List Char) (dep' : Int), ∃ Δ, ∀ s : CState,
      (rec u' d' dep' s).2.dls = s.dls ++ Δ)
    (hrec : ∀ (u' d' : List Char) (dep' : Int) (s : CState),
      SafeInv env s → PairInj (rec u' d' dep' s).2.dls → SafeInv env (rec u' d' dep' s).2) :
    ∀ (st1 : CState), SafeInv env st1 →
      PairInj ((mirrorFetched env localDir depth rec true u ans st1).2.dls) →
      SafeInv env (mirrorFetched env localDir depth rec true u ans st1).2 := by
  intro st1 hI hPI
  cases ans with
  | none =>
    have hred : mirrorFetched env localDir depth rec true u none st1 =
        (.error .fetchErr, bumpErr st1) := rfl
    rw [hred]
    exact hI
  | some v =>
    cases v with
    | mk ctype body =>
      by_cases hhtml : goContains ctype (lchars "text/html") = true
      · by_cases hempty : parseListing body = []
        · have hred : mirrorFetched env localDir depth rec true u (some (ctype, body)) st1 =
              (.ok (), (downloadFileM env true u
                (goJoin localDir (directFilenameHTML (env.urlPath u)))
                FsOp.createDirect st1).2) := by
            simp only [mirrorFetched, hhtml, hempty, if_true, ite_true]
          rw [hred] at hPI ⊢
          exact downloadFileM_post env u (goJoin localDir (directFilenameHTML (env.urlPath u)))
            FsOp.createDirect st1 hc hcons hI
            (hinj_of_pairInj env true u (goJoin localDir (directFilenameHTML (env.urlPath u)))
              FsOp.createDirect st1 hPI)
        · have hred : mirrorFetched env localDir depth rec true u (some (ctype, body)) st1 =
              (.ok (), (parseListing body).foldl
                (processLink env localDir depth rec true u) st1) := by
            simp only [mirrorFetched, hhtml, hempty, if_true, ite_true, if_false, ite_false]
          rw [hred] at hPI ⊢
          exact foldl_post env (processLink env localDir depth rec true u)
            (fun l => processLink_dls_det env localDir depth rec true u l hrecdet)
            (fun s l hs hpi => processLink_post env localDir depth rec u hc hcons hrec s l hs hpi)
            (parseListing body) st1 hI hPI
      · have hred : mirrorFetched env localDir depth rec true u (some (ctype, body)) st1 =
            (.ok (), (downloadFileM env true u
              (goJoin localDir (directFilenameNonHTML (env.urlPath u)))
              FsOp.createDirect st1).2) := by
          simp only [mirrorFetched, hhtml, Bool.false_eq_true, if_false, ite_false]
        rw [hred] at hPI ⊢
        exact downloadFileM_post env u (goJoin localDir (directFilenameNonHTML (env.urlPath u)))
          FsOp.createDirect st1 hc hcons hI
          (hinj_of_pairInj env true u (goJoin localDir (directFilenameNonHTML (env.urlPath u)))
            FsOp.createDirect st1 hPI)

/-- A first run over a consistent, collision-free remote leaves every
logged download call probe-safe against its final filesystem. -/
theorem mirrorURLM_post (env : Env) (m : Int) (hc : env.cancelAt = none)
    (hcons : Consistent env) :
    ∀ (fuel : Nat) (u dir : List Char) (depth : Int) (st : CState), SafeInv env st →
      PairInj ((mirrorURLM env m true fuel u dir depth st).2.dls) →
      SafeInv env (mirrorURLM env m true fuel u dir depth st).2 := by
  intro fuel
  induction fuel with
  | zero => exact fun u dir depth st hI _ => hI
  | succ n ih =>
    intro u dir depth st hI hPI
    by_cases hd : depthReached m depth = true
    · have hred : mirrorURLM env m true (n + 1) u dir depth st = (.ok (), st) := by
        simp only [mirrorURLM, hd, if_true, ite_true]
      rw [hred]
      exact hI
    · by_cases hp : env.parseOkURL u = true
      · have hred : mirrorURLM env m true (n + 1) u dir depth st =
            mirrorFetched env dir depth (mirrorURLM env m true n) true u
              (env.fetchDir u) (logNet u st) := by
          simp only [mirrorURLM]
          rw [if_neg (by simp [hd]), if_neg (by simp [ctxCancelled_none env hc]),
            if_pos hp]
          have hfetch : netFetchDir env st u = env.fetchDir u := by
            unfold netFetchDir
            rw [ctxCancelled_none env hc]
            rfl
          rw [hfetch]
        rw [hred] at hPI ⊢
        exact mirrorFetched_post env dir depth (mirrorURLM env m true n) u
          (env.fetchDir u) hc hcons
          (fun u' d' dep' => mirrorURLM_dls_det env m true hc n u' d' dep')
          (fun u' d' dep' s hs hpi => ih u' d' dep' s hs hpi)
          (logNet u st) hI hPI
      · have hred : mirrorURLM env m true (n + 1) u dir depth st =
            (.error .parseErr, bumpErr st) := by
          simp only [mirrorURLM]
          rw [if_neg (by simp [hd]), if_neg (by simp [ctxCancelled_none env hc]),
            if_neg (by simp [hp])]
        rw [hred]
        exact hI

/-- **C5 counterexample** — over the unchanged remote tree `envCollide`
(identical in both runs), whose links `a` and `sub/a` both resolve to
the local path `/data/t/a`, the first run downloads 2 files and the
second run downloads 2 again (the files-downloaded counter does *not*
stay at zero), rewriting the colliding file's content twice; nothing is
counted skipped. -/
theorem C5_collision_cex :
    (mirrorURLM envCollide 5 true 10 (lchars "http://h/") (lchars "/data/t") 0
       (initState emptyFs)).2.stats =
      { filesDownloaded := 2, filesSkipped := 0, bytesDownloaded := 11, errors := 0 } ∧
    (mirrorURLM envCollide 5 true 10 (lchars "http://h/") (lchars "/data/t") 0
       (initState
         (mirrorURLM envCollide 5 true 10 (lchars "http://h/") (lchars "/data/t") 0
           (initState emptyFs)).2.fs)).2.stats.filesDownloaded = 2 ∧
    (mirrorURLM envCollide 5 true 10 (lchars "http://h/") (lchars "/data/t") 0
       (initState
         (mirrorURLM envCollide 5 true 10 (lchars "http://h/") (lchars "/data/t") 0
           (initState emptyFs)).2.fs)).2.stats.filesSkipped = 0 ∧
    FsOp.createLink (lchars "/data/t/a") ∈
      (mirrorURLM envCollide 5 true 10 (lchars "http://h/") (lchars "/data/t") 0
        (initState
          (mirrorURLM envCollide 5 true 10 (lchars "http://h/") (lchars "/data/t") 0
            (initState emptyFs)).2.fs)).2.ops :=
  ⟨by decide, by decide, by decide, by decide⟩

/-- **C5 (amended)** — mirroring the same unchanged remote tree a second
time with change detection enabled performs zero downloads on the second
run and rewrites no local file, *provided* the remote is consistent
(every successful probe is matched by a content answer of the reported
size and timestamp) and no two distinct URLs of the first run's download
calls resolve to the same local path: the second run's downloaded
counter is 0, it leaves the filesystem exactly as the first run left it,
and its write log holds only subdirectory `MkdirAll`s (no file
creations).  Without those provisos the claim fails (see the
counterexample). -/
theorem C5_idempotence_amended (env : Env) (m : Int) (fuel : Nat) (u dir : List Char)
    (fs0 : List Char → StatRes)
    (hc : env.cancelAt = none) (hcons : Consistent env)
    (hinj : PairInj ((mirrorURLM env m true fuel u dir 0 (initState fs0)).2.dls)) :
    (mirrorURLM env m true fuel u dir 0
      (initState (mirrorURLM env m true fuel u dir 0 (initState fs0)).2.fs)).2.stats.filesDownloaded = 0 ∧
    (mirrorURLM env m true fuel u dir 0
      (initState (mirrorURLM env m true fuel u dir 0 (initState fs0)).2.fs)).2.fs =
      (mirrorURLM env m true fuel u dir 0 (initState fs0)).2.fs ∧
    (∀ op ∈ (mirrorURLM env m true fuel u dir 0
      (initState (mirrorURLM env m true fuel u dir 0 (initState fs0)).2.fs)).2.ops,
      isMkdirSub op) := by
  have hsafe1 : SafeInv env (mirrorURLM env m true fuel u dir 0 (initState fs0)).2 :=
    mirrorURLM_post env m hc hcons fuel u dir 0 (initState fs0)
      (fun v p h => absurd h (List.not_mem_nil _)) hinj
  obtain ⟨Δ, hΔ⟩ := mirrorURLM_dls_det env m true hc fuel u dir 0
  have hdls1 : (mirrorURLM env m true fuel u dir 0 (initState fs0)).2.dls = Δ := by
    rw [hΔ (initState fs0)]
    rfl
  have hdls2 : (mirrorURLM env m true fuel u dir 0
      (initState (mirrorURLM env m true fuel u dir 0 (initState fs0)).2.fs)).2.dls = Δ := by
    rw [hΔ (initState (mirrorURLM env m true fuel u dir 0 (initState fs0)).2.fs)]
    rfl
  have H : ∀ v p, (v, p) ∈ (mirrorURLM env m true fuel u dir 0
      (initState (mirrorURLM env m true fuel u dir 0 (initState fs0)).2.fs)).2.dls →
      probeSafe env (initState (mirrorURLM env m true fuel u dir 0
        (initState fs0)).2.fs).fs v p := by
    intro v p hmem
    rw [hdls2] at hmem
    rw [← hdls1] at hmem
    exact hsafe1 v p hmem
  obtain ⟨hfs, hdn, hops⟩ := mirrorURLM_noop env m hc fuel u dir 0
    (initState (mirrorURLM env m true fuel u dir 0 (initState fs0)).2.fs) H
  refine ⟨?_, ?_, ?_⟩
  · rw [hdn]; rfl
  · rw [hfs]; rfl
  · intro op hop
    rcases hops op hop with h | h
    · exact absurd h (List.not_mem_nil _)
    · exact h

/-- Witness for the amended C5 theorem: over the one-file consistent
remote, a second run after a first run from the empty filesystem
downloads nothing. -/
theorem C5_idempotence_amended_witness :
    (mirrorURLM envOneFile 5 true 10 (lchars "http://h/") (lchars "/data/t") 0
      (initState (mirrorURLM envOneFile 5 true 10 (lchars "http://h/") (lchars "/data/t") 0
        (initState emptyFs)).2.fs)).2.stats.filesDownloaded = 0 :=
  (C5_idempotence_amended envOneFile 5 10 (lchars "http://h/") (lchars "/data/t") emptyFs
    rfl
    (by
      intro v info h
      simp only [envOneFile] at h
      split at h
      next hv =>
        injection h with h2
        subst h2
        exact ⟨3, by simp [envOneFile, hv], rfl⟩
      next hv => cases h)
    (by decide)).1

end HttpMirror
